import Mathlib

/-!
Verification development for the DRBD worker / resync engine
(src/ubuntu/drbd/drbd_worker.c).  The definitions below are a shallow
embedding of the functions of that file; enumerations and the handful of
helpers implemented in other DRBD files (drbd.h, drbd_main.c,
drbd_bitmap.c, drbd_actlog.c, drbd_receiver.c) are modelled from the
specification, as indicated in their doc comments.  Theorems about the
embedding follow after all definitions.
-/

namespace Drbd

/-- Connection states; the enumeration and its order come from drbd.h
(outside src/): StandAlone .. PausedSyncT, with Connected at rank 10 and
the sync-like block SyncSource(16) .. PausedSyncT(21). -/
inductive Conns where
  | StandAlone
  | Disconnecting
  | Unconnected
  | Timeout
  | BrokenPipe
  | NetworkFailure
  | ProtocolError
  | TearDown
  | WFConnection
  | WFReportParams
  | Connected
  | StartingSyncS
  | StartingSyncT
  | WFBitMapS
  | WFBitMapT
  | WFSyncUUID
  | SyncSource
  | SyncTarget
  | VerifyS
  | VerifyT
  | PausedSyncS
  | PausedSyncT
deriving DecidableEq

/-- Numeric value of a connection state, as in the C enum from drbd.h. -/
def connRank : Conns → Nat
  | .StandAlone => 0
  | .Disconnecting => 1
  | .Unconnected => 2
  | .Timeout => 3
  | .BrokenPipe => 4
  | .NetworkFailure => 5
  | .ProtocolError => 6
  | .TearDown => 7
  | .WFConnection => 8
  | .WFReportParams => 9
  | .Connected => 10
  | .StartingSyncS => 11
  | .StartingSyncT => 12
  | .WFBitMapS => 13
  | .WFBitMapT => 14
  | .WFSyncUUID => 15
  | .SyncSource => 16
  | .SyncTarget => 17
  | .VerifyS => 18
  | .VerifyT => 19
  | .PausedSyncS => 20
  | .PausedSyncT => 21

/-- Disk states, from drbd.h (outside src/). -/
inductive Disks where
  | Diskless
  | Attaching
  | Failed
  | Negotiating
  | Inconsistent
  | Outdated
  | DUnknown
  | Consistent
  | UpToDate
deriving DecidableEq

/-- HZ, the kernel timer frequency; 250 is the 2.6.38 default
configuration.  Only the value of SLEEP_TIME/HZ (one tenth of a second)
matters to the code. -/
def HZval : Nat := 250

/-- SLEEP_TIME = HZ/10 (drbd_worker.c line 47), the resync tick, in jiffies. -/
def SLEEP_TIME : Nat := HZval / 10

/-- BM_BLOCK_SIZE = 4096: one bitmap bit covers a 4KiB block (drbd_int.h,
outside src/). -/
def BM_BLOCK_SIZE : Nat := 4096

/-- BM_SECT_PER_BIT = 8: sectors (512 bytes) covered by one bitmap bit. -/
def BM_SECT_PER_BIT : Nat := 8

/-- BM_BLOCKS_PER_BM_EXT_MASK = 4095: bits per 16MiB accounting extent,
minus one (drbd_int.h, outside src/). -/
def BM_BLOCKS_PER_BM_EXT_MASK : Nat := 4095

/-- Packet kinds appearing in the worker's sends (from drbd.h). -/
inductive Packet where
  | RSIsInSync
  | NegRSDReply
  | RSDataReply
  | CsumRSRequest
  | RSDataRequest
  | OVRequest
deriving DecidableEq

/-- A message handed to the peer-link collaborator: either a small
acknowledgment packet or a full data block. -/
inductive Msg where
  | ack (p : Packet) (sector : Nat) (size : Nat)
  | block (p : Packet) (sector : Nat) (size : Nat)
deriving DecidableEq

/-- The peer-supplied digest attached to a checksum resync request
(struct digest_info). -/
structure DigestInfo where
  digest : List Nat
  digestSize : Nat
deriving DecidableEq

/-- Environment of w_e_end_csum_rs_req: facts established outside the
function body (bio outcome, negotiated hash, allocation success). -/
structure CsumEnv where
  hashFn : List Nat → List Nat
  csums_tfm : Bool
  allocOk : Bool
  bioUptodate : Bool

/-- Device state read and written by w_e_end_csum_rs_req.  The bitmap is
indexed by bit number; true means out of sync. -/
structure CsumState where
  bitmap : Nat → Bool
  rs_same_csum : Nat
  rs_pending_cnt : Nat
  unacked_cnt : Nat

/-- The in-flight extent entry handed to the callback (struct
Tl_epoch_entry): sector, byte size and the block payload that was read
locally. -/
structure CsumEntry where
  sector : Nat
  size : Nat
  data : List Nat
deriving DecidableEq

/-- Modelled from the spec: the Bitmap Tracker's bulk set-in-sync update
(drbd_set_in_sync, implemented in drbd_main.c/drbd_bitmap.c, outside
src/).  Clears every bitmap bit whose 4KiB block lies fully inside
[sector, sector + size/512). -/
def drbd_set_in_sync (sector size : Nat) (bm : Nat → Bool) : Nat → Bool :=
  fun b =>
    if sector ≤ BM_SECT_PER_BIT * b ∧ BM_SECT_PER_BIT * (b + 1) ≤ sector + size / 512 then
      false
    else bm b

/-- Embedding of w_e_end_csum_rs_req (drbd_worker.c lines 892-957).
Returns the new device state and the list of messages sent.  drbd_csum is
the abstract env.hashFn; memcmp of the two digests is list equality;
drbd_rs_complete_io and the entry free/net_ee bookkeeping have no effect
on the modelled state. -/
def w_e_end_csum_rs_req (env : CsumEnv) (s : CsumState) (e : CsumEntry)
    (di : DigestInfo) (cancel : Bool) : CsumState × List Msg :=
  if cancel then
    ({ s with unacked_cnt := s.unacked_cnt - 1 }, [])
  else if env.bioUptodate then
    let haveDigest := env.csums_tfm && env.allocOk
    let eq := haveDigest && (env.hashFn e.data == di.digest)
    if eq then
      ({ s with
          bitmap := drbd_set_in_sync e.sector e.size s.bitmap
          rs_same_csum := s.rs_same_csum + 1
          unacked_cnt := s.unacked_cnt - 1 },
       [Msg.ack Packet.RSIsInSync e.sector e.size])
    else
      ({ s with
          rs_pending_cnt := s.rs_pending_cnt + 1
          unacked_cnt := s.unacked_cnt - 1 },
       [Msg.block Packet.RSDataReply e.sector e.size])
  else
    ({ s with unacked_cnt := s.unacked_cnt - 1 },
     [Msg.ack Packet.NegRSDReply e.sector e.size])

/-- Write-ordering modes (enum write_ordering_e from drbd_int.h, ranked
from weakest to strongest). -/
inductive WriteOrdering where
  | WO_none
  | WO_drain_io
  | WO_bdev_flush
  | WO_bio_barrier
deriving DecidableEq

/-- Numeric strength of a write-ordering mode. -/
def woRank : WriteOrdering → Nat
  | .WO_none => 0
  | .WO_drain_io => 1
  | .WO_bdev_flush => 2
  | .WO_bio_barrier => 3

/-- Modelled from the spec: drbd_bump_write_ordering (drbd_receiver.c,
outside src/) demotes the write-ordering mode to at most the wanted one;
it never promotes. -/
def drbd_bump_write_ordering (cur wanted : WriteOrdering) : WriteOrdering :=
  if woRank wanted < woRank cur then wanted else cur

/-- An extent entry as seen by the secondary-role write completion:
sector, byte size, syncer-or-peer id and the two flags read by the
handler. -/
structure WriteEntry where
  sector : Nat
  size : Nat
  isSyncerReq : Bool
  eeIsBarrier : Bool
  eeCallAlCompleteIo : Bool
deriving DecidableEq

/-- Device state touched by drbd_endio_write_sec. -/
structure WriteSecState where
  writ_cnt : Nat
  active_ee : List WriteEntry
  sync_ee : List WriteEntry
  done_ee : List WriteEntry
  reissueQueue : List WriteEntry
  wo : WriteOrdering
  ioErrorRecorded : Bool
deriving DecidableEq

/-- Embedding of drbd_endio_write_sec (drbd_worker.c lines 141-224).
error is the bio error code being nonzero; uptodate the BIO_UPTODATE
flag.  list_del removes the entry from whichever of active_ee/sync_ee it
is on; the barrier-failure path requeues the entry with w_e_reissue
instead of completing it, every other path appends it to done_ee. -/
def drbd_endio_write_sec (s : WriteSecState) (e : WriteEntry)
    (error uptodate : Bool) : WriteSecState :=
  let error := error || !uptodate
  if error && e.eeIsBarrier then
    { s with
        wo := drbd_bump_write_ordering s.wo WriteOrdering.WO_bdev_flush
        active_ee := s.active_ee.erase e
        sync_ee := s.sync_ee.erase e
        reissueQueue := s.reissueQueue ++ [e] }
  else
    { s with
        writ_cnt := s.writ_cnt + e.size / 512
        active_ee := s.active_ee.erase e
        sync_ee := s.sync_ee.erase e
        done_ee := s.done_ee ++ [e]
        ioErrorRecorded := s.ioErrorRecorded || error }

/-- One dispatch iteration of the worker loop (drbd_worker, drbd_worker.c
lines 1404-1430): pop the head work item, invoke its callback with the
cancel flag mdev->state.conn < Connected evaluated at dispatch time, and
on callback failure force NetworkFailure unless the (possibly updated)
state is already below Connected.  run is the callback table: it maps a
work item and the current connection state plus the cancel flag to the
updated connection state and the callback's success bit. -/
def drbd_worker_step {Item : Type} (run : Item → Conns → Bool → Conns × Bool)
    (conn : Conns) (q : List Item) : Conns × List Item × Option (Bool × Bool) :=
  match q with
  | [] => (conn, [], none)
  | w :: rest =>
    let cancel := decide (connRank conn < connRank Conns.Connected)
    let r := run w conn cancel
    if r.2 then
      (r.1, rest, some (cancel, true))
    else if connRank Conns.Connected ≤ connRank r.1 then
      (Conns.NetworkFailure, rest, some (cancel, false))
    else
      (r.1, rest, some (cancel, false))

/-- Environment of the scan engine (w_make_resync_request /
w_make_ov_request): device geometry, configuration, the bitmap contents
and the outcomes of the external collaborators (extent reservation,
allocation, peer-link sends), all constant during one tick. -/
structure ScanEnv where
  capacity : Nat
  max_segment_size : Nat
  rate : Nat
  bmBits : Nat
  dirty : Nat → Bool
  reserveBusy : Nat → Bool
  localOk : Bool
  agreed_pro_version : Nat
  csums_tfm : Bool
  csumLocalOk : Bool
  faultActive : Bool
  csumAllocOk : Bool
  sendOk : Nat → Bool

/-- Modelled from the spec: drbd_bm_test_bit (drbd_bitmap.c, outside
src/) is tri-state: 1 for a set bit, 0 for a clear bit, -1 out of band
past the end of the bitmap. -/
def drbd_bm_test_bit (env : ScanEnv) (b : Nat) : Int :=
  if b < env.bmBits then (if env.dirty b then 1 else 0) else -1

/-- Modelled from the spec: drbd_bm_find_next (drbd_bitmap.c, outside
src/): the first set bit at or after fo, none if no set bit remains
(the C function returns -1UL). -/
def drbd_bm_find_next (env : ScanEnv) (fo : Nat) : Option Nat :=
  ((List.range env.bmBits).drop fo).find? (fun b => env.dirty b)

/-- An operation on the rs_pending_cnt counter (inc_rs_pending /
dec_rs_pending), recorded in issue order. -/
inductive RsOp where
  | incRs
  | decRs
deriving DecidableEq

/-- Apply a trace of counter operations to a starting value. -/
def applyRsOps (p : Int) : List RsOp → Int
  | [] => p
  | RsOp.incRs :: rest => applyRsOps (p + 1) rest
  | RsOp.decRs :: rest => applyRsOps (p - 1) rest

/-- Number of occurrences of a counter operation in a trace. -/
def countOp (a : RsOp) : List RsOp → Nat
  | [] => 0
  | b :: l => (if b = a then 1 else 0) + countOp a l

/-- One request issued by the scan engine: start sector, byte size, and
whether it went through the checksum path (local read for digest) rather
than a raw RSDataRequest/OVRequest. -/
structure RsReq where
  sector : Nat
  size : Nat
  viaCsum : Bool
deriving DecidableEq

/-- Result of one w_make_resync_request tick. -/
structure RsOut where
  fo : Nat
  requests : List RsReq
  ops : List RsOp
  rescheduled : Bool
  cbInactive : Bool
  ret : Bool
deriving DecidableEq

/-- Embedding of read_for_csum (drbd_worker.c lines 371-399), reduced to
its return code: 0 disk failure, 2 fault-injection or allocation
failure, 1 read submitted. -/
def read_for_csum (env : ScanEnv) : Nat :=
  if !env.csumLocalOk then 0
  else if env.faultActive then 2
  else if !env.csumAllocOk then 2
  else 1

/-- The per-tick request budget, number = SLEEP_TIME * rate /
((BM_BLOCK_SIZE/1024) * HZ) (drbd_worker.c lines 460 and 593). -/
def scanNumber (env : ScanEnv) : Nat :=
  SLEEP_TIME * env.rate / ((BM_BLOCK_SIZE / 1024) * HZval)

/-- The merge optimization inside w_make_resync_request (lines 504-528):
greedily extend the request over following dirty bits, keeping the start
sector aligned, not exceeding max_segment_size and not crossing an
accounting-extent boundary.  Returns the last merged bit, the merged
byte size and the advanced loop counter i.  The fuel argument bounds the
iteration; the C loop stops after at most bmBits steps because the bit
test goes out of band. -/
def mergeLoop (env : ScanEnv) (sector : Nat) :
    Nat → Nat → Nat → Nat → Nat → Nat × Nat × Nat
  | 0, bit, size, _, i => (bit, size, i)
  | fuel + 1, bit, size, align, i =>
    if env.max_segment_size < size + BM_BLOCK_SIZE then (bit, size, i)
    else if sector % 2 ^ (align + 3) ≠ 0 then (bit, size, i)
    else if (bit + 1) % (BM_BLOCKS_PER_BM_EXT_MASK + 1) = 0 then (bit, size, i)
    else if drbd_bm_test_bit env (bit + 1) ≠ 1 then (bit, size, i)
    else
      let bit := bit + 1
      let size := size + BM_BLOCK_SIZE
      let align := if BM_BLOCK_SIZE * 2 ^ align ≤ size then align + 1 else align
      mergeLoop env sector fuel bit size align (i + 1)

/-- The main loop of w_make_resync_request (lines 466-559 plus the
post-loop lines 561-576), with number the already-reduced budget.
State: loop counter i, bitmap cursor fo, accumulated requests and
counter operations.  Every exit mirrors one return/goto of the C code:
goto requeue sets rescheduled, the bitmap-exhausted returns set
cbInactive, send/disk failures return ret = false. -/
def rsLoop (env : ScanEnv) (number : Nat) :
    Nat → Nat → Nat → List RsReq → List RsOp → RsOut
  | 0, _, fo, reqs, ops =>
    { fo := fo, requests := reqs, ops := ops,
      rescheduled := true, cbInactive := false, ret := true }
  | fuel + 1, i, fo, reqs, ops =>
    if number ≤ i then
      if env.bmBits ≤ fo then
        { fo := fo, requests := reqs, ops := ops,
          rescheduled := false, cbInactive := true, ret := true }
      else
        { fo := fo, requests := reqs, ops := ops,
          rescheduled := true, cbInactive := false, ret := true }
    else
      match drbd_bm_find_next env fo with
      | none =>
        { fo := env.bmBits, requests := reqs, ops := ops,
          rescheduled := false, cbInactive := true, ret := true }
      | some bit =>
        let sector := BM_SECT_PER_BIT * bit
        if env.reserveBusy sector then
          { fo := bit, requests := reqs, ops := ops,
            rescheduled := true, cbInactive := false, ret := true }
        else
          if drbd_bm_test_bit env bit = 0 then
            rsLoop env number fuel i (bit + 1) reqs ops
          else
            let m := mergeLoop env sector (env.bmBits + 1) bit BM_BLOCK_SIZE 1 i
            let fo2 := if BM_BLOCK_SIZE < m.2.1 then m.1 + 1 else bit + 1
            let size :=
              if env.capacity < sector + m.2.1 / 512 then
                (env.capacity - sector) * 512
              else m.2.1
            if 89 ≤ env.agreed_pro_version && env.csums_tfm then
              match read_for_csum env with
              | 0 =>
                { fo := fo2, requests := reqs, ops := ops,
                  rescheduled := false, cbInactive := false, ret := false }
              | 2 =>
                { fo := sector / BM_SECT_PER_BIT, requests := reqs, ops := ops,
                  rescheduled := true, cbInactive := false, ret := true }
              | _ =>
                rsLoop env number fuel (m.2.2 + 1) fo2
                  (reqs ++ [⟨sector, size, true⟩]) ops
            else
              if env.sendOk sector then
                rsLoop env number fuel (m.2.2 + 1) fo2
                  (reqs ++ [⟨sector, size, false⟩]) (ops ++ [RsOp.incRs])
              else
                { fo := fo2, requests := reqs,
                  ops := ops ++ [RsOp.incRs, RsOp.decRs],
                  rescheduled := false, cbInactive := false, ret := false }

/-- Embedding of w_make_resync_request (drbd_worker.c lines 427-577).
conn is mdev->state.conn, fo0 the incoming bm_resync_fo, pending the
incoming rs_pending_cnt. -/
def w_make_resync_request (env : ScanEnv) (conn : Conns) (fo0 pending : Nat)
    (cancel : Bool) : RsOut :=
  if cancel then
    { fo := fo0, requests := [], ops := [],
      rescheduled := false, cbInactive := false, ret := true }
  else if connRank conn < connRank Conns.Connected then
    { fo := fo0, requests := [], ops := [],
      rescheduled := false, cbInactive := false, ret := false }
  else if !env.localOk then
    { fo := fo0, requests := [], ops := [],
      rescheduled := false, cbInactive := true, ret := true }
  else
    let number := scanNumber env
    if number < pending then
      { fo := fo0, requests := [], ops := [],
        rescheduled := true, cbInactive := false, ret := true }
    else
      rsLoop env (number - pending) (number + env.bmBits + 1) 0 fo0 [] []

/-- Result of one w_make_ov_request tick. -/
structure OvOut where
  ov_position : Nat
  requests : List RsReq
  ops : List RsOp
  rescheduled : Bool
  cbInactive : Bool
  ret : Bool
deriving DecidableEq

/-- The main loop of w_make_ov_request (lines 600-627).  ov0 is the
incoming ov_position, written back only at the requeue exits; the
send-failure and end-of-device returns leave it unchanged, as in the C
code. -/
def ovLoop (env : ScanEnv) (number ov0 : Nat) :
    Nat → Nat → Nat → List RsReq → List RsOp → OvOut
  | 0, _, sector, reqs, ops =>
    { ov_position := sector, requests := reqs, ops := ops,
      rescheduled := true, cbInactive := false, ret := true }
  | fuel + 1, i, sector, reqs, ops =>
    if number ≤ i then
      { ov_position := sector, requests := reqs, ops := ops,
        rescheduled := true, cbInactive := false, ret := true }
    else
      if env.reserveBusy sector then
        { ov_position := sector, requests := reqs, ops := ops,
          rescheduled := true, cbInactive := false, ret := true }
      else
        let size :=
          if env.capacity < sector + BM_BLOCK_SIZE / 512 then
            (env.capacity - sector) * 512
          else BM_BLOCK_SIZE
        if env.sendOk sector then
          let reqs := reqs ++ [⟨sector, size, false⟩]
          let ops := ops ++ [RsOp.incRs]
          let sector2 := sector + BM_SECT_PER_BIT
          if env.capacity ≤ sector2 then
            { ov_position := ov0, requests := reqs, ops := ops,
              rescheduled := false, cbInactive := true, ret := true }
          else
            ovLoop env number ov0 fuel (i + 1) sector2 reqs ops
        else
          { ov_position := ov0, requests := reqs,
            ops := ops ++ [RsOp.incRs, RsOp.decRs],
            rescheduled := false, cbInactive := false, ret := false }

/-- Embedding of w_make_ov_request (drbd_worker.c lines 579-628). -/
def w_make_ov_request (env : ScanEnv) (conn : Conns) (ov0 pending : Nat)
    (cancel : Bool) : OvOut :=
  if cancel then
    { ov_position := ov0, requests := [], ops := [],
      rescheduled := false, cbInactive := false, ret := true }
  else if connRank conn < connRank Conns.Connected then
    { ov_position := ov0, requests := [], ops := [],
      rescheduled := false, cbInactive := false, ret := false }
  else
    let number := scanNumber env
    if number < pending then
      { ov_position := ov0, requests := [], ops := [],
        rescheduled := true, cbInactive := false, ret := true }
    else
      ovLoop env (number - pending) ov0 (number - pending + 1) 0 ov0 [] []

/-- Embedding of w_e_send_csum (drbd_worker.c lines 325-367), reduced to
its effect on rs_pending_cnt and its return value: on an up-to-date read
with a successful digest allocation the counter is incremented and the
digest request sent; a send failure returns 0 without any compensating
decrement. -/
def w_e_send_csum (cancel bioUptodate allocOk sendOk : Bool) :
    List RsOp × Bool :=
  if cancel then ([], true)
  else if bioUptodate then
    if allocOk then ([RsOp.incRs], sendOk)
    else ([], false)
  else ([], true)

/-- Indices into the generation-identifier (UUID) array (enum from
drbd_int.h, outside src/): Current, Bitmap, History_start, History_end. -/
inductive UIdx where
  | Current
  | Bitmap
  | History_start
  | History_end
deriving DecidableEq

/-- Point update of a UUID array. -/
def uuidSet (u : UIdx → Nat) (i : UIdx) (v : Nat) : UIdx → Nat :=
  fun j => if j = i then v else u j

/-- External helper commands fired by drbd_resync_finished. -/
inductive KCmd where
  | afterResyncTarget
  | outOfSync
deriving DecidableEq

/-- Environment of drbd_resync_finished: outcomes of the external calls
(resync-LRU drain, retry-work allocation, inc_local). -/
structure FinEnv where
  delAllOk : Bool
  retryAllocOk : Bool
  localOk : Bool

/-- Device state read and written by drbd_resync_finished.  bmWeight is
drbd_bm_total_weight; writeBmFlag the WRITE_BM_AFTER_RESYNC bit; p_uuid
the peer's UUID array when known. -/
structure FinState where
  conn : Conns
  disk : Disks
  pdsk : Disks
  rs_total : Nat
  rs_failed : Nat
  rs_paused : Nat
  rs_same_csum : Nat
  bmWeight : Nat
  uuid : UIdx → Nat
  p_uuid : Option (UIdx → Nat)
  writeBmFlag : Bool

/-- Result of one drbd_resync_finished invocation: the new state,
whether the retry work item was queued (resync-LRU busy path), whether
_drbd_set_state was reached, and the helper command fired. -/
structure FinOut where
  st : FinState
  requeuedRetry : Bool
  reachedSetState : Bool
  khelper : Option KCmd

/-- The code at the `out:` label of drbd_resync_finished (lines
774-789): reset rs_total/rs_failed/rs_paused, test-and-clear the
WRITE_BM_AFTER_RESYNC flag, then fire the helper command if any. -/
def finishOutTail (s : FinState) (reached : Bool) (kh : Option KCmd) : FinOut :=
  { st := { s with rs_total := 0, rs_failed := 0, rs_paused := 0, writeBmFlag := false },
    requeuedRetry := false, reachedSetState := reached, khelper := kh }

/-- Embedding of drbd_resync_finished (drbd_worker.c lines 649-790).
_drbd_set_state with ChgStateVerbose is modelled from the spec
(drbd_main.c, outside src/) as applying the computed new state; the UUID
juggling mirrors lines 747-767 step by step; drbd_rs_del_all,
drbd_bm_recount_bits and the statistics printing have no effect on the
modelled state.  When drbd_rs_del_all fails, the early return (queueing
the retry work item) happens only if the kmalloc succeeds; on allocation
failure the code logs and falls through into the full finalize body
(lines 668-675). -/
def drbd_resync_finished (env : FinEnv) (s : FinState) : FinOut :=
  if !env.delAllOk && env.retryAllocOk then
    { st := s, requeuedRetry := true,
      reachedSetState := false, khelper := none }
  else
    let s := { s with rs_paused := s.rs_paused / HZval }
    if !env.localOk then
      finishOutTail s false none
    else if connRank s.conn ≤ connRank Conns.Connected then
      finishOutTail s false none
    else
      let targetSide := s.conn = Conns.SyncTarget ∨ s.conn = Conns.PausedSyncT
      let kh : Option KCmd :=
        if s.conn = Conns.VerifyS ∨ s.conn = Conns.VerifyT then
          if s.bmWeight ≠ 0 then some KCmd.outOfSync else none
        else
          if targetSide then some KCmd.afterResyncTarget else none
      if s.rs_failed ≠ 0 then
        let s :=
          if targetSide then
            { s with conn := Conns.Connected, disk := Disks.Inconsistent,
                     pdsk := Disks.UpToDate }
          else
            { s with conn := Conns.Connected, disk := Disks.UpToDate,
                     pdsk := Disks.Inconsistent }
        finishOutTail s true kh
      else
        let u1 :=
          match s.p_uuid with
          | some pu =>
            if targetSide then
              let ua := uuidSet s.uuid UIdx.Bitmap (pu UIdx.Bitmap)
              let ub := uuidSet ua UIdx.History_start (pu UIdx.History_start)
              let uc := uuidSet ub UIdx.History_end (pu UIdx.History_end)
              let ud := uuidSet uc UIdx.Bitmap (uc UIdx.Current)
              uuidSet ud UIdx.Current (pu UIdx.Current)
            else s.uuid
          | none => s.uuid
        let u2 := uuidSet u1 UIdx.Bitmap 0
        let pu2 : Option (UIdx → Nat) :=
          match s.p_uuid with
          | some _ => some (fun i => u2 i)
          | none => none
        let s :=
          { s with conn := Conns.Connected, disk := Disks.UpToDate,
                   pdsk := Disks.UpToDate, uuid := u2, p_uuid := pu2 }
        finishOutTail s true kh

/-- One device of the sync-dependency scheduler: the state fields read
by _drbd_may_sync_now and the pause/resume passes, plus
sync_conf.after (none encodes -1, no prerequisite). -/
structure SchedDev where
  conn : Conns
  disk : Disks
  aftr_isp : Bool
  peer_isp : Bool
  user_isp : Bool
  after : Option Nat
deriving DecidableEq

/-- The registry of devices, indexed by minor number; none models an
unregistered minor. -/
abbrev SchedWorld := List (Option SchedDev)

/-- minor_to_mdev: look up a device by minor. -/
def minorToMdev (w : SchedWorld) (i : Nat) : Option SchedDev :=
  w.getD i none

/-- The blocking test of _drbd_may_sync_now (lines 1167-1170): the
prerequisite is in an active sync-like state (SyncSource..PausedSyncT)
or has one of the three pause flags set. -/
def syncBlocked (d : SchedDev) : Bool :=
  (decide (connRank Conns.SyncSource ≤ connRank d.conn) &&
   decide (connRank d.conn ≤ connRank Conns.PausedSyncT)) ||
  d.aftr_isp || d.peer_isp || d.user_isp

/-- The loop of _drbd_may_sync_now (lines 1158-1173), with explicit
fuel: follow the sync-after chain; return true when the chain ends (no
prerequisite, or prerequisite minor unregistered), false as soon as a
blocked device is found. -/
def maySyncNowAux (w : SchedWorld) : Nat → SchedDev → Bool
  | 0, _ => true
  | fuel + 1, d =>
    match d.after with
    | none => true
    | some j =>
      match minorToMdev w j with
      | none => true
      | some od => if syncBlocked od then false else maySyncNowAux w fuel od

/-- _drbd_may_sync_now; fuel length+1 is enough for every acyclic
configuration. -/
def _drbd_may_sync_now (w : SchedWorld) (d : SchedDev) : Bool :=
  maySyncNowAux w (w.length + 1) d

/-- The list of minors on the sync-after prerequisite chain of a device
(the devices the loop of _drbd_may_sync_now would visit, in order). -/
def chainM (w : SchedWorld) : Nat → SchedDev → List Nat
  | 0, _ => []
  | fuel + 1, d =>
    match d.after with
    | none => []
    | some j =>
      match minorToMdev w j with
      | none => []
      | some od => j :: chainM w fuel od

/-- The skip test of the pause/resume passes (lines 1190, 1215): an
unconfigured device, StandAlone with a Diskless disk. -/
def skipDev (d : SchedDev) : Bool :=
  decide (d.conn = Conns.StandAlone) && decide (d.disk = Disks.Diskless)

/-- Write the aftr_isp flag of the device at a minor (the effect of
__drbd_set_state(_NS(odev, aftr_isp, v), ChgStateHard), modelled from
the spec: the hard single-field change applies the flag and reports
SS_NothingToDo exactly when nothing changed). -/
def setAftr (w : SchedWorld) (i : Nat) (v : Bool) : SchedWorld :=
  w.set i ((minorToMdev w i).map (fun d => { d with aftr_isp := v }))

/-- One iteration of the _drbd_pause_after loop body (lines 1186-1195)
for minor i: pause the device if it may not sync now; the returned flag
is whether the state change was not SS_NothingToDo. -/
def pauseStep (w : SchedWorld) (i : Nat) : SchedWorld × Bool :=
  match minorToMdev w i with
  | none => (w, false)
  | some od =>
    if skipDev od then (w, false)
    else if _drbd_may_sync_now w od then (w, false)
    else (setAftr w i true, !od.aftr_isp)

/-- One iteration of the _drbd_resume_next loop body (lines 1211-1222)
for minor i: resume the device if it is dependency-paused and may sync
now. -/
def resumeStep (w : SchedWorld) (i : Nat) : SchedWorld × Bool :=
  match minorToMdev w i with
  | none => (w, false)
  | some od =>
    if skipDev od then (w, false)
    else if od.aftr_isp then
      if _drbd_may_sync_now w od then (setAftr w i false, true)
      else (w, false)
    else (w, false)

/-- Run a pass body over a list of minors, accumulating the
rv |= change bit as the C loops do. -/
def passP (step : SchedWorld → Nat → SchedWorld × Bool) :
    List Nat → SchedWorld → Bool → SchedWorld × Bool
  | [], w, rv => (w, rv)
  | i :: rest, w, rv =>
    let p := step w i
    passP step rest p.1 (rv || p.2)

/-- _drbd_pause_after (lines 1181-1198). -/
def _drbd_pause_after (w : SchedWorld) : SchedWorld × Bool :=
  passP pauseStep (List.range w.length) w false

/-- _drbd_resume_next (lines 1206-1225). -/
def _drbd_resume_next (w : SchedWorld) : SchedWorld × Bool :=
  passP resumeStep (List.range w.length) w false

/-- The do/while fixed-point loop of drbd_alter_sa (lines 1248-1251),
with explicit fuel; none means the fuel ran out before a pass pair
reported no change. -/
def alterSaLoop : Nat → SchedWorld → Option SchedWorld
  | 0, _ => none
  | fuel + 1, w =>
    let p := _drbd_pause_after w
    let r := _drbd_resume_next p.1
    if p.2 || r.2 then alterSaLoop fuel r.1 else some r.1

/-- Write the sync_conf.after field of the device at a minor (line
1246). -/
def setAfterW (w : SchedWorld) (minor : Nat) (na : Option Nat) : SchedWorld :=
  w.set minor ((minorToMdev w minor).map (fun d => { d with after := na }))

/-- drbd_alter_sa (lines 1241-1254): assign the new sync-after target,
then iterate pause-after / resume-next to a fixed point. -/
def drbd_alter_sa (w : SchedWorld) (minor : Nat) (na : Option Nat)
    (fuel : Nat) : Option SchedWorld :=
  alterSaLoop fuel (setAfterW w minor na)

/-- Acyclicity witness for the sync-after configuration: a rank
function, bounded by the registry size, that strictly decreases along
every sync-after link between registered devices. -/
def hrankOk (w : SchedWorld) (rank : Nat → Nat) : Bool :=
  (List.range w.length).all (fun i =>
    decide (rank i < w.length) &&
    (match minorToMdev w i with
     | none => true
     | some di =>
       match di.after with
       | none => true
       | some j =>
         match minorToMdev w j with
         | none => true
         | some _ => decide (rank j < rank i)))

/-- Blocking status of a device ignoring its dependency-pause flag:
sync-like state or peer/user pause. -/
def rawBlocked (d : SchedDev) : Bool :=
  (decide (connRank Conns.SyncSource ≤ connRank d.conn) &&
   decide (connRank d.conn ≤ connRank Conns.PausedSyncT)) ||
  d.peer_isp || d.user_isp

/-- Contribution of the minor j to the fixed-point target: its raw
blocking status, or its frozen aftr_isp flag when the pause passes skip
it. -/
def blockedBase (w : SchedWorld) (j : Nat) : Bool :=
  match minorToMdev w j with
  | none => false
  | some od => rawBlocked od || (skipDev od && od.aftr_isp)

/-- The fixed-point value of the dependency-pause flag of a device:
some minor on its prerequisite chain is blocked independently of the
recomputation. -/
def targetAftr (w : SchedWorld) (d : SchedDev) : Bool :=
  (chainM w (w.length + 1) d).any (fun j => blockedBase w j)

/-- Blocking status of the device registered at a minor (false for an
unregistered minor, matching the ERR_IF escape of _drbd_may_sync_now). -/
def blockedAt (w : SchedWorld) (j : Nat) : Bool :=
  match minorToMdev w j with
  | none => false
  | some od => syncBlocked od

/-- Concrete checksum-resync environment used by the C1 witness. -/
def c1envW : CsumEnv :=
  { hashFn := fun l => l, csums_tfm := true, allocOk := true, bioUptodate := true }

/-- Concrete device state used by the C1 witness. -/
def c1sW : CsumState :=
  { bitmap := fun _ => true, rs_same_csum := 3, rs_pending_cnt := 2, unacked_cnt := 1 }

/-- Concrete extent entry used by the C1 witness. -/
def c1eW : CsumEntry := { sector := 8, size := 4096, data := [7, 7] }

/-- Concrete matching peer digest used by the C1 witness. -/
def c1diW : DigestInfo := { digest := [7, 7], digestSize := 2 }

/-- C2 counterexample device A: clean, prerequisite is minor 1. -/
def c2A : SchedDev :=
  { conn := Conns.Connected, disk := Disks.UpToDate,
    aftr_isp := false, peer_isp := false, user_isp := false, after := some 1 }

/-- C2 counterexample device B: clean, prerequisite is minor 2. -/
def c2B : SchedDev :=
  { conn := Conns.Connected, disk := Disks.UpToDate,
    aftr_isp := false, peer_isp := false, user_isp := false, after := some 2 }

/-- C2 counterexample device C: actively syncing, no prerequisite. -/
def c2C : SchedDev :=
  { conn := Conns.SyncSource, disk := Disks.UpToDate,
    aftr_isp := false, peer_isp := false, user_isp := false, after := none }

/-- C2 counterexample world: A depends on B depends on C. -/
def c2W : SchedWorld := [some c2A, some c2B, some c2C]

/-- Concrete write entry with the barrier flag, for the C9 witness. -/
def c9eW : WriteEntry :=
  { sector := 16, size := 4096, isSyncerReq := false,
    eeIsBarrier := true, eeCallAlCompleteIo := false }

/-- Concrete secondary-write state for the C9 witness. -/
def c9sW : WriteSecState :=
  { writ_cnt := 0, active_ee := [c9eW], sync_ee := [], done_ee := [],
    reissueQueue := [], wo := WriteOrdering.WO_bio_barrier,
    ioErrorRecorded := false }

/-- Concrete environment for the C7 witness: all external calls
succeed. -/
def c7envW : FinEnv := { delAllOk := true, retryAllocOk := true, localOk := true }

/-- Concrete state for the C7 witness: a SyncTarget run that completed
with no failed blocks. -/
def c7sW : FinState :=
  { conn := Conns.SyncTarget, disk := Disks.Inconsistent,
    pdsk := Disks.UpToDate, rs_total := 5, rs_failed := 0, rs_paused := 0,
    rs_same_csum := 0, bmWeight := 0, uuid := fun _ => 1,
    p_uuid := some (fun _ => 2), writeBmFlag := false }

/-- Concrete scan environment with budget 10 (rate 400 KiB/s) and an
empty bitmap, used by the C5 counterexample: pending equal to the
budget and an exhausted cursor make the tick deactivate instead of
rescheduling. -/
def c5envX : ScanEnv :=
  { capacity := 0, max_segment_size := 4096, rate := 400, bmBits := 0,
    dirty := fun _ => false, reserveBusy := fun _ => false, localOk := true,
    agreed_pro_version := 0, csums_tfm := false, csumLocalOk := true,
    faultActive := false, csumAllocOk := true, sendOk := fun _ => true }

/-- Concrete scan environment for the C5/C8/C10 witnesses: a 12-sector
device whose bitmap has two bits and whose only dirty bit is the last,
oddly-sized one. -/
def c10envW : ScanEnv :=
  { capacity := 12, max_segment_size := 4096, rate := 400, bmBits := 2,
    dirty := fun b => b == 1, reserveBusy := fun _ => false, localOk := true,
    agreed_pro_version := 0, csums_tfm := false, csumLocalOk := true,
    faultActive := false, csumAllocOk := true, sendOk := fun _ => true }

/-- The aftr_isp flag of the device at a minor, when registered. -/
def aftrAt (w : SchedWorld) (i : Nat) : Option Bool :=
  (minorToMdev w i).map (fun d => d.aftr_isp)

/-- The fixed-point value of the dependency-pause flag of the minor i. -/
def targetAt (w : SchedWorld) (i : Nat) : Bool :=
  match minorToMdev w i with
  | none => false
  | some d => targetAftr w d

/-- The minor holds a configured (non-skipped) device. -/
def exNonSkip (w : SchedWorld) (i : Nat) : Prop :=
  ∃ od, minorToMdev w i = some od ∧ skipDev od = false

/-- The device at a minor, if configured, carries its fixed-point
dependency-pause value. -/
def atTargetMinor (w : SchedWorld) (i : Nat) : Prop :=
  ∀ od, minorToMdev w i = some od → skipDev od = false →
    od.aftr_isp = targetAt w i

/-- Every minor of rank below k is at its fixed-point value. -/
def belowTarget (w : SchedWorld) (rank : Nat → Nat) (k : Nat) : Prop :=
  ∀ i, rank i < k → atTargetMinor w i

/-- The rank strictly decreases along every sync-after link between
registered devices. -/
def linkRank (w : SchedWorld) (rank : Nat → Nat) : Prop :=
  ∀ i di j dj, minorToMdev w i = some di → di.after = some j →
    minorToMdev w j = some dj → rank j < rank i

/-- Two registry slots agree on everything the pause/resume passes never
change: registration, connection and disk state, peer/user pause flags,
the sync-after link, and the frozen aftr_isp flag of a skipped device. -/
def devRawEq : Option SchedDev → Option SchedDev → Prop
  | none, none => True
  | some a, some b =>
    a.conn = b.conn ∧ a.disk = b.disk ∧ a.peer_isp = b.peer_isp ∧
    a.user_isp = b.user_isp ∧ a.after = b.after ∧
    (skipDev a = true → a.aftr_isp = b.aftr_isp)
  | _, _ => False

/-- Two worlds agree on everything the pause/resume passes never
change. -/
def rawMatch (w w2 : SchedWorld) : Prop :=
  w.length = w2.length ∧ ∀ j, devRawEq (minorToMdev w j) (minorToMdev w2 j)

/-- C3 counterexample device: unconfigured (StandAlone, Diskless) with a
stale dependency-pause flag. -/
def c3dX : SchedDev :=
  { conn := Conns.StandAlone, disk := Disks.Diskless, aftr_isp := true,
    peer_isp := false, user_isp := false, after := none }

/-- C3 counterexample world. -/
def c3wX : SchedWorld := [some c3dX]

/-- C3 witness device A (minor 0): actively syncing. -/
def c3aW : SchedDev :=
  { conn := Conns.SyncSource, disk := Disks.UpToDate, aftr_isp := false,
    peer_isp := false, user_isp := false, after := none }

/-- C3 witness device B (minor 1): clean; drbd_alter_sa makes it depend
on minor 0. -/
def c3bW : SchedDev :=
  { conn := Conns.Connected, disk := Disks.UpToDate, aftr_isp := false,
    peer_isp := false, user_isp := false, after := none }

/-- C3 witness world. -/
def c3wW : SchedWorld := [some c3aW, some c3bW]

/-! Theorems.  Each claim theorem carries the claim id in its doc
comment; helper lemmas are shared infrastructure. -/

/-- The loop of _drbd_may_sync_now computes exactly the absence of a
blocked device on the (fuel-truncated) prerequisite chain. -/
theorem maySyncNowAux_eq_chain (w : SchedWorld) :
    ∀ fuel d, maySyncNowAux w fuel d =
      !((chainM w fuel d).any (fun j => blockedAt w j)) := by
  intro fuel
  induction fuel with
  | zero => intro d; simp [maySyncNowAux, chainM]
  | succ n ih =>
    intro d
    cases hafter : d.after with
    | none => simp [maySyncNowAux, chainM, hafter]
    | some j =>
      cases hdev : minorToMdev w j with
      | none => simp [maySyncNowAux, chainM, hafter, hdev]
      | some od =>
        cases hblk : syncBlocked od with
        | true =>
          simp [maySyncNowAux, chainM, hafter, hdev, blockedAt, hblk]
        | false =>
          simp [maySyncNowAux, chainM, hafter, hdev, blockedAt, hblk, ih od]

/-- C1: when the receiver of a checksum resync request reads the block
successfully and its locally computed digest equals the peer-supplied
one, it clears the covered bitmap bits, increments rs_same_csum by one
and sends only the RSIsInSync acknowledgment (no data block); when the
digests differ it sends the full RSDataReply data block instead
(w_e_end_csum_rs_req, lines 892-957). -/
theorem c1_csum_rs_receiver (env : CsumEnv) (s : CsumState) (e : CsumEntry)
    (di : DigestInfo)
    (hup : env.bioUptodate = true) (htfm : env.csums_tfm = true)
    (hall : env.allocOk = true) :
    (env.hashFn e.data = di.digest →
      (∀ b, e.sector ≤ BM_SECT_PER_BIT * b →
          BM_SECT_PER_BIT * (b + 1) ≤ e.sector + e.size / 512 →
          (w_e_end_csum_rs_req env s e di false).1.bitmap b = false)
      ∧ (w_e_end_csum_rs_req env s e di false).1.rs_same_csum =
          s.rs_same_csum + 1
      ∧ (w_e_end_csum_rs_req env s e di false).2 =
          [Msg.ack Packet.RSIsInSync e.sector e.size]
      ∧ ∀ p sec sz,
          Msg.block p sec sz ∉ (w_e_end_csum_rs_req env s e di false).2)
    ∧ (env.hashFn e.data ≠ di.digest →
      (w_e_end_csum_rs_req env s e di false).2 =
        [Msg.block Packet.RSDataReply e.sector e.size]
      ∧ (w_e_end_csum_rs_req env s e di false).1.rs_same_csum =
          s.rs_same_csum) := by
  constructor
  · intro heq
    refine ⟨?_, ?_, ?_, ?_⟩
    · intro b h1 h2
      simp [w_e_end_csum_rs_req, hup, htfm, hall, heq, drbd_set_in_sync, h1, h2]
    · simp [w_e_end_csum_rs_req, hup, htfm, hall, heq]
    · simp [w_e_end_csum_rs_req, hup, htfm, hall, heq]
    · intro p sec sz
      simp [w_e_end_csum_rs_req, hup, htfm, hall, heq]
  · intro hne
    have hbeq : (env.hashFn e.data == di.digest) = false := by
      simpa using hne
    simp [w_e_end_csum_rs_req, hup, htfm, hall, hbeq]

/-- C1 witness: at a concrete matching digest the covered bit is
cleared and the same-checksum counter incremented. -/
theorem c1_csum_rs_receiver_witness :
    (w_e_end_csum_rs_req c1envW c1sW c1eW c1diW false).1.bitmap 1 = false
    ∧ (w_e_end_csum_rs_req c1envW c1sW c1eW c1diW false).1.rs_same_csum =
        c1sW.rs_same_csum + 1
    ∧ (w_e_end_csum_rs_req c1envW c1sW c1eW c1diW false).2 =
        [Msg.ack Packet.RSIsInSync 8 4096] := by
  have h := c1_csum_rs_receiver c1envW c1sW c1eW c1diW rfl rfl rfl
  exact ⟨(h.1 rfl).1 1 (by decide) (by decide), (h.1 rfl).2.1,
    (h.1 rfl).2.2.1⟩

/-- C2 counterexample: device A's immediate prerequisite B is neither in
a sync-like state nor paused, yet _drbd_may_sync_now A is false, because
the loop walks the whole chain and finds the second-level prerequisite C
actively syncing.  This refutes the claimed iff, which only mentions the
immediate prerequisite. -/
theorem c2_counterexample :
    minorToMdev c2W 0 = some c2A
    ∧ c2A.after = some 1
    ∧ minorToMdev c2W 1 = some c2B
    ∧ syncBlocked c2B = false
    ∧ _drbd_may_sync_now c2W c2A = false := by decide

/-- C2 (amended): _drbd_may_sync_now returns true iff every device along
the whole sync-after prerequisite chain (not just the immediate
prerequisite) is neither in an active sync-like state
(SyncSource..PausedSyncT) nor has any of its three pause flags set
(lines 1158-1173). -/
theorem c2_may_sync_now_chain (w : SchedWorld) (d : SchedDev) :
    _drbd_may_sync_now w d = true ↔
      ∀ j ∈ chainM w (w.length + 1) d, ∀ od, minorToMdev w j = some od →
        syncBlocked od = false := by
  rw [_drbd_may_sync_now, maySyncNowAux_eq_chain]
  simp only [Bool.not_eq_true', List.any_eq_false]
  constructor
  · intro h j hj od hod
    have h2 := h j hj
    simp only [blockedAt, hod] at h2
    simpa using h2
  · intro h j hj
    simp only [blockedAt]
    cases hod : minorToMdev w j with
    | none => simp [hod]
    | some od => simp [hod, h j hj od hod]

/-- C2 witness: in the counterexample world the amended
characterization evaluates the chain of A to minors 1 and 2 and
_drbd_may_sync_now agrees with the chain condition. -/
theorem c2_may_sync_now_chain_witness :
    (_drbd_may_sync_now c2W c2A = true ↔
      ∀ j ∈ chainM c2W (c2W.length + 1) c2A, ∀ od,
        minorToMdev c2W j = some od → syncBlocked od = false) :=
  c2_may_sync_now_chain c2W c2A

/-- C4: the worker dispatch invokes the popped callback with a cancel
flag that is true exactly when the connection is below Connected at
dispatch time, and on callback failure forces NetworkFailure unless the
post-callback state is already below Connected (drbd_worker, lines
1421-1430). -/
theorem c4_worker_dispatch {Item : Type}
    (run : Item → Conns → Bool → Conns × Bool) (conn : Conns) (w : Item)
    (rest : List Item) :
    ((drbd_worker_step run conn (w :: rest)).2.2 =
        some (decide (connRank conn < connRank Conns.Connected),
          (run w conn (decide (connRank conn < connRank Conns.Connected))).2))
    ∧ ((run w conn (decide (connRank conn < connRank Conns.Connected))).2 = true →
        (drbd_worker_step run conn (w :: rest)).1 =
          (run w conn (decide (connRank conn < connRank Conns.Connected))).1)
    ∧ ((run w conn (decide (connRank conn < connRank Conns.Connected))).2 = false →
        (drbd_worker_step run conn (w :: rest)).1 =
          (if connRank Conns.Connected ≤
              connRank (run w conn
                (decide (connRank conn < connRank Conns.Connected))).1
           then Conns.NetworkFailure
           else (run w conn
             (decide (connRank conn < connRank Conns.Connected))).1)) := by
  refine ⟨?_, ?_, ?_⟩
  · simp only [drbd_worker_step]
    cases hok : (run w conn (decide (connRank conn < connRank Conns.Connected))).2 with
    | true => simp [hok]
    | false =>
      simp only [hok, Bool.false_eq_true, if_false]
      split <;> rfl
  · intro hok
    simp [drbd_worker_step, hok]
  · intro hok
    simp only [drbd_worker_step, hok, Bool.false_eq_true, if_false]
    split <;> simp_all

/-- C4 witness: a failing callback that leaves the state at Connected
forces the NetworkFailure transition. -/
theorem c4_worker_dispatch_witness :
    (drbd_worker_step (fun (_ : Unit) (_ : Conns) (_ : Bool) =>
        (Conns.Connected, false)) Conns.Connected [()]).1 =
      Conns.NetworkFailure := by
  have h := (c4_worker_dispatch
    (fun (_ : Unit) (_ : Conns) (_ : Bool) => (Conns.Connected, false))
    Conns.Connected () []).2.2 rfl
  simpa using h

/-- C9: on secondary-role write completion, success moves the entry to
the done queue with nothing else degraded; failure of a barrier write
demotes the write-ordering mode and requeues the entry for reissue
without recording a volume error; failure of a non-barrier write records
a local I/O error and still moves the entry to the done queue for the
negative acknowledgment (drbd_endio_write_sec, lines 141-224). -/
theorem c9_endio_write_sec (s : WriteSecState) (e : WriteEntry)
    (error uptodate : Bool) :
    (error = false → uptodate = true →
      (drbd_endio_write_sec s e error uptodate).done_ee = s.done_ee ++ [e]
      ∧ (drbd_endio_write_sec s e error uptodate).wo = s.wo
      ∧ (drbd_endio_write_sec s e error uptodate).ioErrorRecorded =
          s.ioErrorRecorded
      ∧ (drbd_endio_write_sec s e error uptodate).reissueQueue =
          s.reissueQueue)
    ∧ ((error = true ∨ uptodate = false) → e.eeIsBarrier = true →
      (drbd_endio_write_sec s e error uptodate).reissueQueue =
          s.reissueQueue ++ [e]
      ∧ (drbd_endio_write_sec s e error uptodate).wo =
          drbd_bump_write_ordering s.wo WriteOrdering.WO_bdev_flush
      ∧ woRank (drbd_endio_write_sec s e error uptodate).wo ≤ woRank s.wo
      ∧ woRank (drbd_endio_write_sec s e error uptodate).wo ≤
          woRank WriteOrdering.WO_bdev_flush
      ∧ (drbd_endio_write_sec s e error uptodate).done_ee = s.done_ee
      ∧ (drbd_endio_write_sec s e error uptodate).ioErrorRecorded =
          s.ioErrorRecorded)
    ∧ ((error = true ∨ uptodate = false) → e.eeIsBarrier = false →
      (drbd_endio_write_sec s e error uptodate).ioErrorRecorded = true
      ∧ (drbd_endio_write_sec s e error uptodate).done_ee =
          s.done_ee ++ [e]) := by
  refine ⟨?_, ?_, ?_⟩
  · intro he hu
    simp [drbd_endio_write_sec, he, hu]
  · intro he hb
    have herr : (error || !uptodate) = true := by
      rcases he with h | h <;> simp [h]
    have hmain : drbd_endio_write_sec s e error uptodate =
        { s with
            wo := drbd_bump_write_ordering s.wo WriteOrdering.WO_bdev_flush
            active_ee := s.active_ee.erase e
            sync_ee := s.sync_ee.erase e
            reissueQueue := s.reissueQueue ++ [e] } := by
      simp [drbd_endio_write_sec, herr, hb]
    rw [hmain]
    refine ⟨rfl, rfl, ?_, ?_, rfl, rfl⟩
    · show woRank (drbd_bump_write_ordering s.wo WriteOrdering.WO_bdev_flush) ≤
        woRank s.wo
      simp only [drbd_bump_write_ordering]
      split
      · omega
      · exact le_rfl
    · show woRank (drbd_bump_write_ordering s.wo WriteOrdering.WO_bdev_flush) ≤
        woRank WriteOrdering.WO_bdev_flush
      simp only [drbd_bump_write_ordering]
      split
      · exact le_rfl
      · omega
  · intro he hb
    have herr : (error || !uptodate) = true := by
      rcases he with h | h <;> simp [h]
    simp [drbd_endio_write_sec, herr, hb]

/-- C9 witness: a failed barrier write at the concrete state demotes the
ordering mode from WO_bio_barrier to WO_bdev_flush and requeues the
entry. -/
theorem c9_endio_write_sec_witness :
    (drbd_endio_write_sec c9sW c9eW true true).reissueQueue = [c9eW]
    ∧ (drbd_endio_write_sec c9sW c9eW true true).wo =
        WriteOrdering.WO_bdev_flush
    ∧ (drbd_endio_write_sec c9sW c9eW true true).ioErrorRecorded = false := by
  have h := (c9_endio_write_sec c9sW c9eW true true).2.1 (Or.inl rfl) rfl
  refine ⟨?_, ?_, ?_⟩
  · simpa [c9sW] using h.1
  · rw [h.2.1]; decide
  · simpa [c9sW] using h.2.2.2.2.2

/-- On a state that is already settled (counters zero, flag clear) and
that cannot pass the above-Connected guard, drbd_resync_finished is the
identity on the state and reaches neither the state transition nor a
helper command. -/
theorem resync_finished_settled (env : FinEnv) (s : FinState)
    (h1 : (!env.delAllOk && env.retryAllocOk) = false)
    (hz : s.rs_paused = 0) (ht : s.rs_total = 0)
    (hf : s.rs_failed = 0) (hw : s.writeBmFlag = false)
    (hc : connRank s.conn ≤ connRank Conns.Connected ∨ env.localOk = false) :
    drbd_resync_finished env s =
      { st := s, requeuedRetry := false, reachedSetState := false,
        khelper := none } := by
  obtain ⟨conn, disk, pdsk, rst, rsf, rsp, rsc, bmw, uu, puu, wbf⟩ := s
  simp only at hz ht hf hw hc
  subst hz ht hf hw
  cases hloc : env.localOk with
  | false => simp [drbd_resync_finished, h1, hloc, finishOutTail]
  | true =>
    have hcc : connRank conn ≤ connRank Conns.Connected := by
      rcases hc with h | h
      · exact h
      · rw [hloc] at h; cases h
    simp [drbd_resync_finished, h1, hloc, finishOutTail, hcc]

/-- After any drbd_resync_finished call that ran the finalize body
(the resync-LRU drain succeeded, or it failed and the retry allocation
failed too), the run statistics are zeroed, the bitmap-write flag is
clear, and either the connection is at or below Connected or the local
disk was unavailable; so a repeated call is settled. -/
theorem resync_finished_post (env : FinEnv) (s : FinState)
    (h1 : (!env.delAllOk && env.retryAllocOk) = false) :
    (drbd_resync_finished env s).st.rs_paused = 0
    ∧ (drbd_resync_finished env s).st.rs_total = 0
    ∧ (drbd_resync_finished env s).st.rs_failed = 0
    ∧ (drbd_resync_finished env s).st.writeBmFlag = false
    ∧ (connRank (drbd_resync_finished env s).st.conn ≤
          connRank Conns.Connected ∨ env.localOk = false) := by
  cases hloc : env.localOk with
  | false => simp [drbd_resync_finished, h1, hloc, finishOutTail]
  | true =>
    by_cases hg : connRank s.conn ≤ connRank Conns.Connected
    · simp [drbd_resync_finished, h1, hloc, hg, finishOutTail]
    · by_cases hfl : s.rs_failed ≠ 0
      · by_cases hts : s.conn = Conns.SyncTarget ∨ s.conn = Conns.PausedSyncT
        · simp [drbd_resync_finished, h1, hloc, hg, hfl, hts, finishOutTail]
        · simp [drbd_resync_finished, h1, hloc, hg, hfl, hts, finishOutTail]
      · simp [drbd_resync_finished, h1, hloc, hg, hfl, finishOutTail]

/-- C6: drbd_resync_finished is idempotent: a second invocation either
repeats the retry-queueing early return on an unchanged state, or finds
the connection no longer above Connected (or the same early-exit
conditions) with already-zeroed statistics, and is a no-op on the state,
performing no state transition and firing no helper command (the guard
of lines 691-694 and the zeroed statistics of lines 774-777). -/
theorem c6_resync_finished_idempotent (env : FinEnv) (s : FinState) :
    (drbd_resync_finished env (drbd_resync_finished env s).st).st =
        (drbd_resync_finished env s).st
    ∧ (drbd_resync_finished env
        (drbd_resync_finished env s).st).reachedSetState = false
    ∧ (drbd_resync_finished env (drbd_resync_finished env s).st).khelper =
        none := by
  cases hq : (!env.delAllOk && env.retryAllocOk) with
  | true => simp [drbd_resync_finished, hq]
  | false =>
    obtain ⟨h1, h2, h3, h4, h5⟩ := resync_finished_post env s hq
    rw [resync_finished_settled env (drbd_resync_finished env s).st hq
      h1 h2 h3 h4 h5]
    exact ⟨rfl, rfl, rfl⟩

/-- C7: a resync (non-verify) completion above Connected with no failed
blocks promotes both disk states to UpToDate and leaves the peer UUID
set equal to the local one; with failed blocks the failing side
(local disk on SyncTarget/PausedSyncT, peer disk otherwise) becomes
Inconsistent and the other UpToDate (drbd_resync_finished, lines
733-768). -/
theorem c7_resync_finished_states (env : FinEnv) (s : FinState)
    (hdel : env.delAllOk = true) (hloc : env.localOk = true)
    (hconn : connRank Conns.Connected < connRank s.conn)
    (_hv1 : s.conn ≠ Conns.VerifyS) (_hv2 : s.conn ≠ Conns.VerifyT) :
    (s.rs_failed = 0 →
      (drbd_resync_finished env s).st.disk = Disks.UpToDate
      ∧ (drbd_resync_finished env s).st.pdsk = Disks.UpToDate
      ∧ ∀ pu, s.p_uuid = some pu →
          ∃ pu2, (drbd_resync_finished env s).st.p_uuid = some pu2
            ∧ ∀ i, pu2 i = (drbd_resync_finished env s).st.uuid i)
    ∧ (s.rs_failed ≠ 0 →
      ((s.conn = Conns.SyncTarget ∨ s.conn = Conns.PausedSyncT) →
        (drbd_resync_finished env s).st.disk = Disks.Inconsistent
        ∧ (drbd_resync_finished env s).st.pdsk = Disks.UpToDate)
      ∧ (¬(s.conn = Conns.SyncTarget ∨ s.conn = Conns.PausedSyncT) →
        (drbd_resync_finished env s).st.disk = Disks.UpToDate
        ∧ (drbd_resync_finished env s).st.pdsk = Disks.Inconsistent)) := by
  have hg : ¬ connRank s.conn ≤ connRank Conns.Connected := by omega
  constructor
  · intro hf
    have hf2 : ¬ s.rs_failed ≠ 0 := by omega
    refine ⟨?_, ?_, ?_⟩
    · simp [drbd_resync_finished, hdel, hloc, hg, hf2, finishOutTail]
    · simp [drbd_resync_finished, hdel, hloc, hg, hf2, finishOutTail]
    · intro pu hpu
      by_cases hts : s.conn = Conns.SyncTarget ∨ s.conn = Conns.PausedSyncT
      · refine ⟨_, ?_, fun i => rfl⟩
        simp [drbd_resync_finished, hdel, hloc, hg, hf2, hpu, hts,
          finishOutTail]
      · refine ⟨_, ?_, fun i => rfl⟩
        simp [drbd_resync_finished, hdel, hloc, hg, hf2, hpu, hts,
          finishOutTail]
  · intro hf
    constructor
    · intro hts
      constructor <;>
        simp [drbd_resync_finished, hdel, hloc, hg, hf, hts, finishOutTail]
    · intro hts
      constructor <;>
        simp [drbd_resync_finished, hdel, hloc, hg, hf, hts, finishOutTail]

/-- C7 witness: a concrete clean SyncTarget completion promotes both
sides to UpToDate and synchronizes the UUID sets. -/
theorem c7_resync_finished_states_witness :
    (drbd_resync_finished c7envW c7sW).st.disk = Disks.UpToDate
    ∧ (drbd_resync_finished c7envW c7sW).st.pdsk = Disks.UpToDate
    ∧ ∃ pu2, (drbd_resync_finished c7envW c7sW).st.p_uuid = some pu2
        ∧ ∀ i, pu2 i = (drbd_resync_finished c7envW c7sW).st.uuid i := by
  have h := (c7_resync_finished_states c7envW c7sW rfl rfl (by decide)
    (by decide) (by decide)).1 rfl
  exact ⟨h.1, h.2.1, h.2.2 _ rfl⟩

/-- The merge loop never decreases the budget counter i. -/
theorem mergeLoop_i_le (env : ScanEnv) (sector : Nat) :
    ∀ fuel bit size align i,
      i ≤ (mergeLoop env sector fuel bit size align i).2.2 := by
  intro fuel
  induction fuel with
  | zero => intro bit size align i; simp [mergeLoop]
  | succ n ih =>
    intro bit size align i
    simp only [mergeLoop]
    split
    · simp
    split
    · simp
    split
    · simp
    split
    · simp
    exact le_trans (Nat.le_succ i) (ih _ _ _ _)

/-- A bit returned by drbd_bm_find_next lies inside the bitmap. -/
theorem find_next_lt (env : ScanEnv) (fo bit : Nat)
    (h : drbd_bm_find_next env fo = some bit) : bit < env.bmBits := by
  have hmem := List.mem_of_find?_eq_some h
  have h2 : bit ∈ List.range env.bmBits := List.mem_of_mem_drop hmem
  simpa using h2

/-- The resync scan loop issues at most number - i further requests. -/
theorem rsLoop_len (env : ScanEnv) (number : Nat) :
    ∀ fuel i fo reqs ops,
      (rsLoop env number fuel i fo reqs ops).requests.length ≤
        reqs.length + (number - i) := by
  intro fuel
  induction fuel with
  | zero => intro i fo reqs ops; simp [rsLoop]
  | succ n ih =>
    intro i fo reqs ops
    by_cases hi : number ≤ i
    · by_cases hfo : env.bmBits ≤ fo <;> simp [rsLoop, hi, hfo]
    · cases hfind : drbd_bm_find_next env fo with
      | none => simp [rsLoop, hi, hfind]
      | some bit =>
        by_cases hres : env.reserveBusy (BM_SECT_PER_BIT * bit) = true
        · simp [rsLoop, hi, hfind, hres]
        · by_cases htest : drbd_bm_test_bit env bit = 0
          · simpa [rsLoop, hi, hfind, hres, htest] using ih i (bit + 1) reqs ops
          · have hm : i ≤ (mergeLoop env (BM_SECT_PER_BIT * bit)
                (env.bmBits + 1) bit BM_BLOCK_SIZE 1 i).2.2 :=
              mergeLoop_i_le env _ _ _ _ _ _
            by_cases hcs : (89 ≤ env.agreed_pro_version && env.csums_tfm) = true
            · cases hread : read_for_csum env with
              | zero => simp [rsLoop, hi, hfind, hres, htest, hcs, hread]
              | succ m =>
                cases m with
                | zero =>
                  simp only [rsLoop]
                  simp [hi, hfind, hres, htest, hcs, hread]
                  refine le_trans (ih _ _ _ _) ?_
                  simp only [List.length_append, List.length_singleton]
                  omega
                | succ m2 =>
                  cases m2 with
                  | zero => simp [rsLoop, hi, hfind, hres, htest, hcs, hread]
                  | succ m3 =>
                    simp only [rsLoop]
                    simp [hi, hfind, hres, htest, hcs, hread]
                    refine le_trans (ih _ _ _ _) ?_
                    simp only [List.length_append, List.length_singleton]
                    omega
            · by_cases hsend : env.sendOk (BM_SECT_PER_BIT * bit) = true
              · simp only [rsLoop]
                simp [hi, hfind, hres, htest, hcs, hsend]
                refine le_trans (ih _ _ _ _) ?_
                simp only [List.length_append, List.length_singleton]
                omega
              · simp [rsLoop, hi, hfind, hres, htest, hcs, hsend]

/-- Every request accumulated by the resync scan loop stays clamped to
the device capacity, provided every bitmap bit maps below the capacity. -/
theorem rsLoop_clamped (env : ScanEnv) (number : Nat)
    (hcap : ∀ b, b < env.bmBits → BM_SECT_PER_BIT * b < env.capacity) :
    ∀ fuel i fo reqs ops,
      (∀ r ∈ reqs, r.sector + r.size / 512 ≤ env.capacity) →
      ∀ r ∈ (rsLoop env number fuel i fo reqs ops).requests,
        r.sector + r.size / 512 ≤ env.capacity := by
  intro fuel
  induction fuel with
  | zero => intro i fo reqs ops hreqs; simpa [rsLoop] using hreqs
  | succ n ih =>
    intro i fo reqs ops hreqs
    by_cases hi : number ≤ i
    · by_cases hfo : env.bmBits ≤ fo <;> simpa [rsLoop, hi, hfo] using hreqs
    · cases hfind : drbd_bm_find_next env fo with
      | none => simpa [rsLoop, hi, hfind] using hreqs
      | some bit =>
        have hsec : BM_SECT_PER_BIT * bit < env.capacity :=
          hcap bit (find_next_lt env fo bit hfind)
        by_cases hres : env.reserveBusy (BM_SECT_PER_BIT * bit) = true
        · simpa [rsLoop, hi, hfind, hres] using hreqs
        · by_cases htest : drbd_bm_test_bit env bit = 0
          · simpa [rsLoop, hi, hfind, hres, htest] using
              ih i (bit + 1) reqs ops hreqs
          · by_cases hcs : (89 ≤ env.agreed_pro_version && env.csums_tfm) = true
            · cases hread : read_for_csum env with
              | zero => simpa [rsLoop, hi, hfind, hres, htest, hcs, hread]
                  using hreqs
              | succ m =>
                cases m with
                | zero =>
                  simp only [rsLoop]
                  simp [hi, hfind, hres, htest, hcs, hread]
                  refine ih _ _ _ _ ?_
                  intro r hr
                  rcases List.mem_append.1 hr with h | h
                  · exact hreqs r h
                  · simp only [List.mem_singleton] at h
                    subst h
                    dsimp only
                    split <;> omega
                | succ m2 =>
                  cases m2 with
                  | zero => simpa [rsLoop, hi, hfind, hres, htest, hcs, hread]
                      using hreqs
                  | succ m3 =>
                    simp only [rsLoop]
                    simp [hi, hfind, hres, htest, hcs, hread]
                    refine ih _ _ _ _ ?_
                    intro r hr
                    rcases List.mem_append.1 hr with h | h
                    · exact hreqs r h
                    · simp only [List.mem_singleton] at h
                      subst h
                      dsimp only
                      split <;> omega
            · by_cases hsend : env.sendOk (BM_SECT_PER_BIT * bit) = true
              · simp only [rsLoop]
                simp [hi, hfind, hres, htest, hcs, hsend]
                refine ih _ _ _ _ ?_
                intro r hr
                rcases List.mem_append.1 hr with h | h
                · exact hreqs r h
                · simp only [List.mem_singleton] at h
                  subst h
                  dsimp only
                  split <;> omega
              · simpa [rsLoop, hi, hfind, hres, htest, hcs, hsend] using hreqs

/-- The verify scan loop issues at most number - i further requests. -/
theorem ovLoop_len (env : ScanEnv) (number ov0 : Nat) :
    ∀ fuel i sector reqs ops,
      (ovLoop env number ov0 fuel i sector reqs ops).requests.length ≤
        reqs.length + (number - i) := by
  intro fuel
  induction fuel with
  | zero => intro i sector reqs ops; simp [ovLoop]
  | succ n ih =>
    intro i sector reqs ops
    by_cases hi : number ≤ i
    · simp [ovLoop, hi]
    · by_cases hres : env.reserveBusy sector = true
      · simp [ovLoop, hi, hres]
      · by_cases hsend : env.sendOk sector = true
        · by_cases hend : env.capacity ≤ sector + BM_SECT_PER_BIT
          · simp [ovLoop, hi, hres, hsend, hend]
            omega
          · simp only [ovLoop]
            simp [hi, hres, hsend, hend]
            refine le_trans (ih _ _ _ _) ?_
            simp only [List.length_append, List.length_singleton]
            omega
        · simp [ovLoop, hi, hres, hsend]

/-- Every request issued by the verify scan loop stays clamped to the
capacity, provided the incoming cursor does. -/
theorem ovLoop_clamped (env : ScanEnv) (number ov0 : Nat) :
    ∀ fuel i sector reqs ops, sector ≤ env.capacity →
      (∀ r ∈ reqs, r.sector + r.size / 512 ≤ env.capacity) →
      ∀ r ∈ (ovLoop env number ov0 fuel i sector reqs ops).requests,
        r.sector + r.size / 512 ≤ env.capacity := by
  intro fuel
  induction fuel with
  | zero => intro i sector reqs ops hs hreqs; simpa [ovLoop] using hreqs
  | succ n ih =>
    intro i sector reqs ops hs hreqs
    have hext : ∀ r ∈ reqs ++
        [⟨sector,
          if env.capacity < sector + BM_BLOCK_SIZE / 512 then
            (env.capacity - sector) * 512
          else BM_BLOCK_SIZE, false⟩],
        r.sector + r.size / 512 ≤ env.capacity := by
      intro r hr
      rcases List.mem_append.1 hr with h | h
      · exact hreqs r h
      · simp only [List.mem_singleton] at h
        subst h
        dsimp only
        simp only [BM_BLOCK_SIZE]
        split <;> omega
    by_cases hi : number ≤ i
    · simpa [ovLoop, hi] using hreqs
    · by_cases hres : env.reserveBusy sector = true
      · simpa [ovLoop, hi, hres] using hreqs
      · by_cases hsend : env.sendOk sector = true
        · by_cases hend : env.capacity ≤ sector + BM_SECT_PER_BIT
          · have e1 : (ovLoop env number ov0 (n + 1) i sector reqs ops).requests =
                reqs ++ [⟨sector,
                  if env.capacity < sector + BM_BLOCK_SIZE / 512 then
                    (env.capacity - sector) * 512
                  else BM_BLOCK_SIZE, false⟩] := by
              simp [ovLoop, hi, hres, hsend, hend]
            rw [e1]
            exact hext
          · have e1 : ovLoop env number ov0 (n + 1) i sector reqs ops =
                ovLoop env number ov0 n (i + 1) (sector + BM_SECT_PER_BIT)
                  (reqs ++ [⟨sector,
                    if env.capacity < sector + BM_BLOCK_SIZE / 512 then
                      (env.capacity - sector) * 512
                    else BM_BLOCK_SIZE, false⟩])
                  (ops ++ [RsOp.incRs]) := by
              simp [ovLoop, hi, hres, hsend, hend]
            rw [e1]
            exact ih _ _ _ _ (by omega) hext
        · simpa [ovLoop, hi, hres, hsend] using hreqs

/-- Appending one copy extends a replicate by one. -/
theorem replicate_snoc {α : Type} (k : Nat) (a : α) :
    List.replicate k a ++ [a] = List.replicate (k + 1) a := by
  have h := List.replicate_add k 1 a
  simpa using h.symm

/-- Appending an increment and a decrement to an all-increment trace. -/
theorem replicate_snoc_two (k : Nat) :
    List.replicate k RsOp.incRs ++ [RsOp.incRs, RsOp.decRs] =
      List.replicate (k + 1) RsOp.incRs ++ [RsOp.decRs] := by
  rw [← replicate_snoc, List.append_assoc]
  rfl

/-- countOp distributes over append. -/
theorem countOp_append (a : RsOp) (l1 l2 : List RsOp) :
    countOp a (l1 ++ l2) = countOp a l1 + countOp a l2 := by
  induction l1 with
  | nil => simp [countOp]
  | cons b l ih => simp [countOp, ih]; omega

/-- applyRsOps processes an append sequentially. -/
theorem applyRsOps_append (p : Int) (l1 l2 : List RsOp) :
    applyRsOps p (l1 ++ l2) = applyRsOps (applyRsOps p l1) l2 := by
  induction l1 generalizing p with
  | nil => rfl
  | cons op l ih => cases op <;> simp [applyRsOps, ih]

/-- applyRsOps on an all-increment trace adds its length. -/
theorem applyRsOps_replicate (p : Int) (k : Nat) :
    applyRsOps p (List.replicate k RsOp.incRs) = p + k := by
  induction k generalizing p with
  | zero => simp [applyRsOps]
  | succ n ih =>
    simp only [List.replicate_succ, applyRsOps, ih]
    omega

/-- A trace that is all increments, possibly followed by one final
decrement that immediately follows its increment, keeps every prefix
value at or above zero when started non-negative. -/
theorem rsOpsShape_nonneg (ops : List RsOp)
    (h : ∃ k, ops = List.replicate k RsOp.incRs
      ∨ (1 ≤ k ∧ ops = List.replicate k RsOp.incRs ++ [RsOp.decRs])) :
    ∀ p : Int, 0 ≤ p → ∀ n, 0 ≤ applyRsOps p (ops.take n) := by
  rcases h with ⟨k, h | ⟨hk, h⟩⟩
  · subst h
    intro p hp n
    rw [List.take_replicate, applyRsOps_replicate]
    have : (0 : Int) ≤ (min n k : Nat) := Int.natCast_nonneg _
    omega
  · subst h
    intro p hp n
    rw [List.take_append_eq_append_take, List.take_replicate,
      applyRsOps_append, applyRsOps_replicate]
    simp only [List.length_replicate]
    rcases Nat.eq_zero_or_pos (n - k) with hnk | hnk
    · rw [hnk]
      simp only [List.take_zero, applyRsOps]
      have : (0 : Int) ≤ (min n k : Nat) := Int.natCast_nonneg _
      omega
    · obtain ⟨m, hm⟩ := Nat.exists_eq_add_of_lt hnk
      rw [hm]
      have hmin : min n k = k := by omega
      simp only [Nat.zero_add, List.take_succ_cons, List.take_nil, hmin,
        applyRsOps]
      omega

/-- The resync scan loop emits only increments, except for exactly one
final compensating decrement right after the increment of a failed send;
and it emits exactly one increment per raw (non-checksum) request plus
one for the failed send. -/
theorem rsLoop_ops (env : ScanEnv) (number : Nat) :
    ∀ fuel i fo reqs ops k,
      ops = List.replicate k RsOp.incRs →
      countOp RsOp.incRs ops =
        (reqs.filter (fun r => !r.viaCsum)).length + countOp RsOp.decRs ops →
      (∃ k2, (rsLoop env number fuel i fo reqs ops).ops =
          List.replicate k2 RsOp.incRs
        ∨ (1 ≤ k2 ∧ (rsLoop env number fuel i fo reqs ops).ops =
            List.replicate k2 RsOp.incRs ++ [RsOp.decRs]))
      ∧ countOp RsOp.incRs (rsLoop env number fuel i fo reqs ops).ops =
          ((rsLoop env number fuel i fo reqs ops).requests.filter
            (fun r => !r.viaCsum)).length +
          countOp RsOp.decRs (rsLoop env number fuel i fo reqs ops).ops := by
  intro fuel
  induction fuel with
  | zero =>
    intro i fo reqs ops k hk hcnt
    refine ⟨⟨k, Or.inl ?_⟩, ?_⟩
    · simpa [rsLoop] using hk
    · simpa [rsLoop] using hcnt
  | succ n ih =>
    intro i fo reqs ops k hk hcnt
    by_cases hi : number ≤ i
    · by_cases hfo : env.bmBits ≤ fo
      · refine ⟨⟨k, Or.inl ?_⟩, ?_⟩
        · simpa [rsLoop, hi, hfo] using hk
        · simpa [rsLoop, hi, hfo] using hcnt
      · refine ⟨⟨k, Or.inl ?_⟩, ?_⟩
        · simpa [rsLoop, hi, hfo] using hk
        · simpa [rsLoop, hi, hfo] using hcnt
    · cases hfind : drbd_bm_find_next env fo with
      | none =>
        refine ⟨⟨k, Or.inl ?_⟩, ?_⟩
        · simpa [rsLoop, hi, hfind] using hk
        · simpa [rsLoop, hi, hfind] using hcnt
      | some bit =>
        by_cases hres : env.reserveBusy (BM_SECT_PER_BIT * bit) = true
        · refine ⟨⟨k, Or.inl ?_⟩, ?_⟩
          · simpa [rsLoop, hi, hfind, hres] using hk
          · simpa [rsLoop, hi, hfind, hres] using hcnt
        · by_cases htest : drbd_bm_test_bit env bit = 0
          · simp only [rsLoop]
            simp [hi, hfind, hres, htest]
            exact ih i (bit + 1) reqs ops k hk hcnt
          · by_cases hcs : (89 ≤ env.agreed_pro_version && env.csums_tfm) = true
            · cases hread : read_for_csum env with
              | zero =>
                refine ⟨⟨k, Or.inl ?_⟩, ?_⟩
                · simpa [rsLoop, hi, hfind, hres, htest, hcs, hread] using hk
                · simpa [rsLoop, hi, hfind, hres, htest, hcs, hread] using hcnt
              | succ m =>
                cases m with
                | zero =>
                  simp only [rsLoop]
                  simp [hi, hfind, hres, htest, hcs, hread]
                  refine ih _ _ _ _ k hk ?_
                  simpa [List.filter_append] using hcnt
                | succ m2 =>
                  cases m2 with
                  | zero =>
                    refine ⟨⟨k, Or.inl ?_⟩, ?_⟩
                    · simpa [rsLoop, hi, hfind, hres, htest, hcs, hread]
                        using hk
                    · simpa [rsLoop, hi, hfind, hres, htest, hcs, hread]
                        using hcnt
                  | succ m3 =>
                    simp only [rsLoop]
                    simp [hi, hfind, hres, htest, hcs, hread]
                    refine ih _ _ _ _ k hk ?_
                    simpa [List.filter_append] using hcnt
            · by_cases hsend : env.sendOk (BM_SECT_PER_BIT * bit) = true
              · simp only [rsLoop]
                simp [hi, hfind, hres, htest, hcs, hsend]
                refine ih _ _ _ _ (k + 1) ?_ ?_
                · rw [hk]; exact replicate_snoc k RsOp.incRs
                · simp only [countOp_append, List.filter_append] at hcnt ⊢
                  simp [countOp]
                  omega
              · simp only [rsLoop]
                simp [hi, hfind, hres, htest, hcs, hsend]
                constructor
                · refine ⟨k + 1, Or.inr ⟨by omega, ?_⟩⟩
                  rw [hk]
                  exact replicate_snoc_two k
                · simp only [countOp_append] at hcnt ⊢
                  simp [countOp]
                  omega

/-- The verify scan loop emits only increments, except for exactly one
final compensating decrement right after the increment of a failed send;
and exactly one increment per successfully sent request plus one for the
failed send. -/
theorem ovLoop_ops (env : ScanEnv) (number ov0 : Nat) :
    ∀ fuel i sector reqs ops k,
      ops = List.replicate k RsOp.incRs →
      countOp RsOp.incRs ops =
        (reqs.filter (fun r => !r.viaCsum)).length + countOp RsOp.decRs ops →
      (∃ k2, (ovLoop env number ov0 fuel i sector reqs ops).ops =
          List.replicate k2 RsOp.incRs
        ∨ (1 ≤ k2 ∧ (ovLoop env number ov0 fuel i sector reqs ops).ops =
            List.replicate k2 RsOp.incRs ++ [RsOp.decRs]))
      ∧ countOp RsOp.incRs (ovLoop env number ov0 fuel i sector reqs ops).ops =
          ((ovLoop env number ov0 fuel i sector reqs ops).requests.filter
            (fun r => !r.viaCsum)).length +
          countOp RsOp.decRs (ovLoop env number ov0 fuel i sector reqs ops).ops := by
  intro fuel
  induction fuel with
  | zero =>
    intro i sector reqs ops k hk hcnt
    refine ⟨⟨k, Or.inl ?_⟩, ?_⟩
    · simpa [ovLoop] using hk
    · simpa [ovLoop] using hcnt
  | succ n ih =>
    intro i sector reqs ops k hk hcnt
    by_cases hi : number ≤ i
    · refine ⟨⟨k, Or.inl ?_⟩, ?_⟩
      · simpa [ovLoop, hi] using hk
      · simpa [ovLoop, hi] using hcnt
    · by_cases hres : env.reserveBusy sector = true
      · refine ⟨⟨k, Or.inl ?_⟩, ?_⟩
        · simpa [ovLoop, hi, hres] using hk
        · simpa [ovLoop, hi, hres] using hcnt
      · by_cases hsend : env.sendOk sector = true
        · by_cases hend : env.capacity ≤ sector + BM_SECT_PER_BIT
          · constructor
            · refine ⟨k + 1, Or.inl ?_⟩
              simp [ovLoop, hi, hres, hsend, hend]
              rw [hk]
              exact replicate_snoc k RsOp.incRs
            · simp [ovLoop, hi, hres, hsend, hend, countOp_append,
                List.filter_append, countOp]
              try simp only [countOp_append, List.filter_append] at hcnt
              omega
          · simp only [ovLoop]
            simp [hi, hres, hsend, hend]
            refine ih _ _ _ _ (k + 1) ?_ ?_
            · rw [hk]; exact replicate_snoc k RsOp.incRs
            · simp only [countOp_append, List.filter_append] at hcnt ⊢
              simp [countOp]
              omega
        · simp only [ovLoop]
          simp [hi, hres, hsend]
          constructor
          · refine ⟨k + 1, Or.inr ⟨by omega, ?_⟩⟩
            rw [hk]
            exact replicate_snoc_two k
          · simp only [countOp_append] at hcnt ⊢
            simp [countOp]
            omega

/-- The ops trace and request accounting of a whole
w_make_resync_request tick. -/
theorem w_make_resync_request_ops (env : ScanEnv) (conn : Conns)
    (fo0 pending : Nat) :
    (∃ k, (w_make_resync_request env conn fo0 pending false).ops =
        List.replicate k RsOp.incRs
      ∨ (1 ≤ k ∧ (w_make_resync_request env conn fo0 pending false).ops =
          List.replicate k RsOp.incRs ++ [RsOp.decRs]))
    ∧ countOp RsOp.incRs (w_make_resync_request env conn fo0 pending false).ops =
        ((w_make_resync_request env conn fo0 pending false).requests.filter
          (fun r => !r.viaCsum)).length +
        countOp RsOp.decRs
          (w_make_resync_request env conn fo0 pending false).ops := by
  by_cases hconn : connRank conn < connRank Conns.Connected
  · refine ⟨⟨0, Or.inl ?_⟩, ?_⟩ <;>
      simp [w_make_resync_request, hconn, countOp]
  · by_cases hloc : env.localOk = true
    · by_cases hbud : scanNumber env < pending
      · refine ⟨⟨0, Or.inl ?_⟩, ?_⟩ <;>
          simp [w_make_resync_request, hconn, hloc, hbud, countOp]
      · have h := rsLoop_ops env (scanNumber env - pending)
          (scanNumber env + env.bmBits + 1) 0 fo0 [] [] 0 rfl (by simp [countOp])
        simpa [w_make_resync_request, hconn, hloc, hbud] using h
    · refine ⟨⟨0, Or.inl ?_⟩, ?_⟩ <;>
        simp [w_make_resync_request, hconn, hloc, countOp]

/-- The ops trace and request accounting of a whole w_make_ov_request
tick. -/
theorem w_make_ov_request_ops (env : ScanEnv) (conn : Conns)
    (ov0 pending : Nat) :
    (∃ k, (w_make_ov_request env conn ov0 pending false).ops =
        List.replicate k RsOp.incRs
      ∨ (1 ≤ k ∧ (w_make_ov_request env conn ov0 pending false).ops =
          List.replicate k RsOp.incRs ++ [RsOp.decRs]))
    ∧ countOp RsOp.incRs (w_make_ov_request env conn ov0 pending false).ops =
        ((w_make_ov_request env conn ov0 pending false).requests.filter
          (fun r => !r.viaCsum)).length +
        countOp RsOp.decRs (w_make_ov_request env conn ov0 pending false).ops := by
  by_cases hconn : connRank conn < connRank Conns.Connected
  · refine ⟨⟨0, Or.inl ?_⟩, ?_⟩ <;>
      simp [w_make_ov_request, hconn, countOp]
  · by_cases hbud : scanNumber env < pending
    · refine ⟨⟨0, Or.inl ?_⟩, ?_⟩ <;>
        simp [w_make_ov_request, hconn, hbud, countOp]
    · have h := ovLoop_ops env (scanNumber env - pending) ov0
        (scanNumber env - pending + 1) 0 ov0 [] [] 0 rfl (by simp [countOp])
      simpa [w_make_ov_request, hconn, hbud] using h

/-- C5 counterexample: with the pending count equal to the budget
(budget 10, pending 10) and the bitmap cursor already past the end of
the bitmap, the resync tick issues no request but does not reschedule:
it deactivates the resync callback instead, contrary to the claim that a
non-positive budget only reschedules. -/
theorem c5_counterexample :
    scanNumber c5envX = 10
    ∧ (w_make_resync_request c5envX Conns.SyncTarget 0 10 false).requests = []
    ∧ (w_make_resync_request c5envX Conns.SyncTarget 0 10 false).rescheduled =
        false
    ∧ (w_make_resync_request c5envX Conns.SyncTarget 0 10 false).cbInactive =
        true := by decide

/-- C5 (amended): on a tick that passes its entry guards the number of
issued requests is bounded by budget - pending, with budget =
SLEEP_TIME*rate/((BM_BLOCK_SIZE/1024)*HZ) = rate/40 blocks; when pending
exceeds the budget both ticks issue nothing and only reschedule; when
the remaining budget is exactly zero the verify tick also only
reschedules, while the resync tick reschedules only if the cursor is
still inside the bitmap and otherwise deactivates the resync callback
(w_make_resync_request lines 460-464, w_make_ov_request lines
593-597). -/
theorem c5_scan_budget (env : ScanEnv) (conn : Conns) (fo0 ov0 pending : Nat)
    (hconn : connRank Conns.Connected ≤ connRank conn)
    (hloc : env.localOk = true) :
    scanNumber env = env.rate / 40
    ∧ (w_make_resync_request env conn fo0 pending false).requests.length ≤
        scanNumber env - pending
    ∧ (w_make_ov_request env conn ov0 pending false).requests.length ≤
        scanNumber env - pending
    ∧ (scanNumber env < pending →
        (w_make_resync_request env conn fo0 pending false).requests = []
        ∧ (w_make_resync_request env conn fo0 pending false).rescheduled = true
        ∧ (w_make_resync_request env conn fo0 pending false).cbInactive = false
        ∧ (w_make_ov_request env conn ov0 pending false).requests = []
        ∧ (w_make_ov_request env conn ov0 pending false).rescheduled = true)
    ∧ (pending = scanNumber env →
        (w_make_resync_request env conn fo0 pending false).requests = []
        ∧ (env.bmBits ≤ fo0 →
            (w_make_resync_request env conn fo0 pending false).cbInactive = true
            ∧ (w_make_resync_request env conn fo0 pending false).rescheduled =
                false)
        ∧ (fo0 < env.bmBits →
            (w_make_resync_request env conn fo0 pending false).rescheduled =
                true)
        ∧ (w_make_ov_request env conn ov0 pending false).requests = []
        ∧ (w_make_ov_request env conn ov0 pending false).rescheduled = true) := by
  have hc2 : ¬ connRank conn < connRank Conns.Connected := by omega
  refine ⟨?_, ?_, ?_, ?_, ?_⟩
  · show SLEEP_TIME * env.rate / ((BM_BLOCK_SIZE / 1024) * HZval) =
      env.rate / 40
    norm_num [SLEEP_TIME, BM_BLOCK_SIZE, HZval]
    rw [show (1000 : Nat) = 25 * 40 by norm_num]
    exact Nat.mul_div_mul_left env.rate 40 (by norm_num)
  · by_cases hbud : scanNumber env < pending
    · simp [w_make_resync_request, hc2, hloc, hbud]
    · have h := rsLoop_len env (scanNumber env - pending)
        (scanNumber env + env.bmBits + 1) 0 fo0 [] []
      simpa [w_make_resync_request, hc2, hloc, hbud] using h
  · by_cases hbud : scanNumber env < pending
    · simp [w_make_ov_request, hc2, hbud]
    · have h := ovLoop_len env (scanNumber env - pending) ov0
        (scanNumber env - pending + 1) 0 ov0 [] []
      simpa [w_make_ov_request, hc2, hbud] using h
  · intro hbud
    refine ⟨?_, ?_, ?_, ?_, ?_⟩ <;>
      simp [w_make_resync_request, w_make_ov_request, hc2, hloc, hbud]
  · intro hbud
    have hb2 : ¬ scanNumber env < pending := by omega
    have hz : scanNumber env - pending = 0 := by omega
    refine ⟨?_, ?_, ?_, ?_, ?_⟩
    · by_cases hfo : env.bmBits ≤ fo0 <;>
        simp [w_make_resync_request, hc2, hloc, hb2, hz, rsLoop, hfo]
    · intro hfo
      constructor <;>
        simp [w_make_resync_request, hc2, hloc, hb2, hz, rsLoop, hfo]
    · intro hfo
      have hfo2 : ¬ env.bmBits ≤ fo0 := by omega
      simp [w_make_resync_request, hc2, hloc, hb2, hz, rsLoop, hfo2]
    · simp [w_make_ov_request, hc2, hb2, hz, ovLoop]
    · simp [w_make_ov_request, hc2, hb2, hz, ovLoop]

/-- C5 witness: with budget 10 and pending 11 the concrete resync and
verify ticks issue nothing and only reschedule. -/
theorem c5_scan_budget_witness :
    scanNumber c10envW = 10
    ∧ (w_make_resync_request c10envW Conns.SyncTarget 0 11 false).requests = []
    ∧ (w_make_resync_request c10envW Conns.SyncTarget 0 11 false).rescheduled =
        true
    ∧ (w_make_ov_request c10envW Conns.SyncTarget 0 11 false).requests = []
    ∧ (w_make_ov_request c10envW Conns.SyncTarget 0 11 false).rescheduled =
        true := by
  have h := c5_scan_budget c10envW Conns.SyncTarget 0 0 11 (by decide) rfl
  have hb := h.2.2.2.1 (by rw [h.1]; decide)
  exact ⟨by rw [h.1]; decide, hb.1, hb.2.1, hb.2.2.2.1, hb.2.2.2.2⟩

/-- C8 counterexample: w_e_send_csum increments rs_pending_cnt, then on
a definitive send failure of the checksum request returns failure
without any compensating decrement, refuting the claim that every send
failure immediately after an increment is compensated by exactly one
decrement. -/
theorem c8_counterexample :
    w_e_send_csum false true true false = ([RsOp.incRs], false)
    ∧ countOp RsOp.decRs (w_e_send_csum false true true false).1 = 0 := by
  decide

/-- C8 (amended): in the scan-request functions w_make_resync_request
and w_make_ov_request, rs_pending_cnt is incremented exactly once per
raw request sent, a definitive send failure right after an increment is
compensated by exactly one decrement (the only decrement of the tick,
immediately after its increment), and the counter never drops below its
value at entry, so starting non-negative it never goes negative; in the
checksum-request path (w_e_send_csum) a send failure instead leaves the
increment uncompensated for connection teardown to clean up. -/
theorem c8_rs_pending_discipline (env : ScanEnv) (conn : Conns)
    (fo0 ov0 pending : Nat) :
    (∃ k, (w_make_resync_request env conn fo0 pending false).ops =
        List.replicate k RsOp.incRs
      ∨ (1 ≤ k ∧ (w_make_resync_request env conn fo0 pending false).ops =
          List.replicate k RsOp.incRs ++ [RsOp.decRs]))
    ∧ (∀ p : Int, 0 ≤ p → ∀ n, 0 ≤ applyRsOps p
        ((w_make_resync_request env conn fo0 pending false).ops.take n))
    ∧ countOp RsOp.incRs (w_make_resync_request env conn fo0 pending false).ops =
        ((w_make_resync_request env conn fo0 pending false).requests.filter
          (fun r => !r.viaCsum)).length +
        countOp RsOp.decRs (w_make_resync_request env conn fo0 pending false).ops
    ∧ (∃ k, (w_make_ov_request env conn ov0 pending false).ops =
        List.replicate k RsOp.incRs
      ∨ (1 ≤ k ∧ (w_make_ov_request env conn ov0 pending false).ops =
          List.replicate k RsOp.incRs ++ [RsOp.decRs]))
    ∧ (∀ p : Int, 0 ≤ p → ∀ n, 0 ≤ applyRsOps p
        ((w_make_ov_request env conn ov0 pending false).ops.take n))
    ∧ countOp RsOp.incRs (w_make_ov_request env conn ov0 pending false).ops =
        ((w_make_ov_request env conn ov0 pending false).requests.filter
          (fun r => !r.viaCsum)).length +
        countOp RsOp.decRs (w_make_ov_request env conn ov0 pending false).ops := by
  obtain ⟨h1, h2⟩ := w_make_resync_request_ops env conn fo0 pending
  obtain ⟨h3, h4⟩ := w_make_ov_request_ops env conn ov0 pending
  exact ⟨h1, rsOpsShape_nonneg _ h1, h2, h3, rsOpsShape_nonneg _ h3, h4⟩

/-- C8 witness: the concrete tick records exactly one increment for its
one raw request and every prefix value stays non-negative from zero. -/
theorem c8_rs_pending_discipline_witness :
    (w_make_resync_request c10envW Conns.SyncTarget 0 0 false).ops =
      [RsOp.incRs]
    ∧ 0 ≤ applyRsOps 0
        ((w_make_resync_request c10envW Conns.SyncTarget 0 0 false).ops.take 1) := by
  constructor
  · decide
  · exact (c8_rs_pending_discipline c10envW Conns.SyncTarget 0 0 0).2.1 0
      le_rfl 1

/-- C10: every request issued by the resync or verify scan tick is
clamped to the device capacity: its start sector plus its size in
sectors never exceeds capacity; an oddly-sized last request is shortened
(the clamp at w_make_resync_request lines 535-537 and w_make_ov_request
lines 608-609), provided the bitmap bits map below the capacity and the
verify cursor starts inside the device. -/
theorem c10_requests_clamped (env : ScanEnv) (conn : Conns)
    (fo0 ov0 pending : Nat) (cancel : Bool)
    (hcap : ∀ b, b < env.bmBits → BM_SECT_PER_BIT * b < env.capacity)
    (hov : ov0 ≤ env.capacity) :
    (∀ r ∈ (w_make_resync_request env conn fo0 pending cancel).requests,
        r.sector + r.size / 512 ≤ env.capacity)
    ∧ (∀ r ∈ (w_make_ov_request env conn ov0 pending cancel).requests,
        r.sector + r.size / 512 ≤ env.capacity) := by
  constructor
  · cases cancel with
    | true => simp [w_make_resync_request]
    | false =>
      by_cases hconn : connRank conn < connRank Conns.Connected
      · simp [w_make_resync_request, hconn]
      · by_cases hloc : env.localOk = true
        · by_cases hbud : scanNumber env < pending
          · simp [w_make_resync_request, hconn, hloc, hbud]
          · have h := rsLoop_clamped env (scanNumber env - pending) hcap
              (scanNumber env + env.bmBits + 1) 0 fo0 [] [] (by simp)
            simpa [w_make_resync_request, hconn, hloc, hbud] using h
        · simp [w_make_resync_request, hconn, hloc]
  · cases cancel with
    | true => simp [w_make_ov_request]
    | false =>
      by_cases hconn : connRank conn < connRank Conns.Connected
      · simp [w_make_ov_request, hconn]
      · by_cases hbud : scanNumber env < pending
        · simp [w_make_ov_request, hconn, hbud]
        · have h := ovLoop_clamped env (scanNumber env - pending) ov0
            (scanNumber env - pending + 1) 0 ov0 [] [] hov (by simp)
          simpa [w_make_ov_request, hconn, hbud] using h

/-- C10 witness: on the concrete 12-sector device the only issued
request is the shortened last one, sector 8 with 2048 bytes, ending
exactly at the capacity. -/
theorem c10_requests_clamped_witness :
    (w_make_resync_request c10envW Conns.SyncTarget 0 0 false).requests =
      [⟨8, 2048, false⟩]
    ∧ ∀ r ∈ (w_make_resync_request c10envW Conns.SyncTarget 0 0 false).requests,
        r.sector + r.size / 512 ≤ c10envW.capacity := by
  constructor
  · decide
  · exact (c10_requests_clamped c10envW Conns.SyncTarget 0 0 0 false
      (by decide) (by decide)).1

/-- A registered minor is inside the registry. -/
theorem minorToMdev_lt (w : SchedWorld) (i : Nat) (od : SchedDev)
    (h : minorToMdev w i = some od) : i < w.length := by
  by_contra hh
  rw [minorToMdev, List.getD_eq_default _ _ (by omega)] at h
  cases h

/-- Setting a list entry to its current value is the identity. -/
theorem list_set_self {α : Type} :
    ∀ (l : List α) (i : Nat) (x : α), l.get? i = some x → l.set i x = l := by
  intro l
  induction l with
  | nil => intro i x h; cases h
  | cons a t ih =>
    intro i x h
    cases i with
    | zero =>
      simp only [List.get?] at h
      cases h
      rfl
    | succ n =>
      simp only [List.get?] at h
      simp only [List.set]
      rw [ih n x h]

/-- getD at a registered minor determines get?. -/
theorem minorToMdev_get? (w : SchedWorld) (i : Nat) (od : SchedDev)
    (h : minorToMdev w i = some od) : w.get? i = some (some od) := by
  rw [minorToMdev, List.getD_eq_get?] at h
  cases hg : w.get? i with
  | none => rw [hg] at h; cases h
  | some x => rw [hg] at h; simp at h; rw [h]

/-- setAftr preserves the registry size. -/
theorem setAftr_length (w : SchedWorld) (i : Nat) (v : Bool) :
    (setAftr w i v).length = w.length := by
  simp [setAftr]

/-- Writing the flag it already has changes nothing. -/
theorem setAftr_eq_self (w : SchedWorld) (i : Nat) (od : SchedDev)
    (h : minorToMdev w i = some od) (hv : od.aftr_isp = true) :
    setAftr w i true = w := by
  rw [setAftr, h]
  have : { od with aftr_isp := true } = od := by
    cases od
    simp only at hv
    simp [hv]
  rw [Option.map_some', this]
  exact list_set_self w i (some od) (minorToMdev_get? w i od h)

/-- Reading the minor just written by setAftr. -/
theorem minorToMdev_setAftr_same (w : SchedWorld) (i : Nat) (v : Bool)
    (od : SchedDev) (h : minorToMdev w i = some od) :
    minorToMdev (setAftr w i v) i = some { od with aftr_isp := v } := by
  have hg := minorToMdev_get? w i od h
  rw [setAftr, h, Option.map_some', minorToMdev, List.getD_eq_get?,
    List.get?_set_eq, hg]
  rfl

/-- Reading another minor after setAftr. -/
theorem minorToMdev_setAftr_other (w : SchedWorld) (i : Nat) (v : Bool)
    (j : Nat) (h : j ≠ i) :
    minorToMdev (setAftr w i v) j = minorToMdev w j := by
  rw [setAftr, minorToMdev, List.getD_eq_get?,
    List.get?_set_ne _ _ (Ne.symm h), minorToMdev, List.getD_eq_get?]

/-- Unpack the boolean acyclicity witness into its two properties. -/
theorem hrank_spec (w : SchedWorld) (rank : Nat → Nat)
    (hr : hrankOk w rank = true) :
    (∀ i, i < w.length → rank i < w.length) ∧ linkRank w rank := by
  rw [hrankOk, List.all_eq_true] at hr
  constructor
  · intro i hi
    have h := hr i (List.mem_range.2 hi)
    rw [Bool.and_eq_true] at h
    exact of_decide_eq_true h.1
  · intro i di j dj h1 h2 h3
    have hi : i < w.length := minorToMdev_lt w i di h1
    have h := hr i (List.mem_range.2 hi)
    rw [Bool.and_eq_true] at h
    have h4 := h.2
    rw [h1] at h4
    simp only [h2, h3] at h4
    exact of_decide_eq_true h4

/-- The blocking test splits into the raw part and the dependency-pause
flag. -/
theorem syncBlocked_eq (d : SchedDev) :
    syncBlocked d = (rawBlocked d || d.aftr_isp) := by
  simp only [syncBlocked, rawBlocked]
  cases d.aftr_isp <;> cases d.peer_isp <;> cases d.user_isp <;> simp

/-- devRawEq is reflexive. -/
theorem devRawEq_refl (o : Option SchedDev) : devRawEq o o := by
  cases o with
  | none => trivial
  | some a => exact ⟨rfl, rfl, rfl, rfl, rfl, fun _ => rfl⟩

/-- Raw-equal devices agree on the skip test. -/
theorem devRawEq_skip (a b : SchedDev)
    (h : devRawEq (some a) (some b)) : skipDev a = skipDev b := by
  obtain ⟨h1, h2, _, _, _, _⟩ := h
  simp [skipDev, h1, h2]

/-- devRawEq is transitive. -/
theorem devRawEq_trans (o1 o2 o3 : Option SchedDev)
    (h1 : devRawEq o1 o2) (h2 : devRawEq o2 o3) : devRawEq o1 o3 := by
  cases o1 with
  | none =>
    cases o2 with
    | none => exact h2
    | some b => cases h1
  | some a =>
    cases o2 with
    | none => cases h1
    | some b =>
      cases o3 with
      | none => cases h2
      | some c =>
        obtain ⟨a1, a2, a3, a4, a5, a6⟩ := h1
        obtain ⟨b1, b2, b3, b4, b5, b6⟩ := h2
        refine ⟨a1.trans b1, a2.trans b2, a3.trans b3, a4.trans b4,
          a5.trans b5, fun hsk => ?_⟩
        have hsk2 : skipDev b = true := by
          rw [← devRawEq_skip a b ⟨a1, a2, a3, a4, a5, a6⟩]
          exact hsk
        exact (a6 hsk).trans (b6 hsk2)

/-- rawMatch is reflexive. -/
theorem rawMatch_refl (w : SchedWorld) : rawMatch w w :=
  ⟨rfl, fun j => devRawEq_refl _⟩

/-- rawMatch is transitive. -/
theorem rawMatch_trans (w1 w2 w3 : SchedWorld) (h1 : rawMatch w1 w2)
    (h2 : rawMatch w2 w3) : rawMatch w1 w3 :=
  ⟨h1.1.trans h2.1, fun j => devRawEq_trans _ _ _ (h1.2 j) (h2.2 j)⟩

/-- Writing the dependency-pause flag of a configured device preserves
rawMatch. -/
theorem setAftr_rawMatch (w : SchedWorld) (i : Nat) (v : Bool)
    (od : SchedDev) (hdev : minorToMdev w i = some od)
    (hskip : skipDev od = false) : rawMatch w (setAftr w i v) := by
  refine ⟨(setAftr_length w i v).symm, fun j => ?_⟩
  by_cases hj : j = i
  · subst hj
    rw [hdev, minorToMdev_setAftr_same w j v od hdev]
    exact ⟨rfl, rfl, rfl, rfl, rfl, fun hsk => by rw [hskip] at hsk; cases hsk⟩
  · rw [minorToMdev_setAftr_other w i v j hj]
    exact devRawEq_refl _

/-- Raw-equal worlds have identical sync-after chains. -/
theorem chainM_rawMatch (w w2 : SchedWorld) (hm : rawMatch w w2) :
    ∀ fuel (d d2 : SchedDev), d.after = d2.after →
      chainM w fuel d = chainM w2 fuel d2 := by
  intro fuel
  induction fuel with
  | zero => intro d d2 h; rfl
  | succ n ih =>
    intro d d2 hafter
    cases ha : d.after with
    | none =>
      have ha2 : d2.after = none := by rw [← hafter]; exact ha
      simp [chainM, ha, ha2]
    | some j =>
      have ha2 : d2.after = some j := by rw [← hafter]; exact ha
      have hj := hm.2 j
      cases hd1 : minorToMdev w j with
      | none =>
        cases hd2 : minorToMdev w2 j with
        | none => simp [chainM, ha, ha2, hd1, hd2]
        | some b => rw [hd1, hd2] at hj; cases hj
      | some a =>
        cases hd2 : minorToMdev w2 j with
        | none => rw [hd1, hd2] at hj; cases hj
        | some b =>
          rw [hd1, hd2] at hj
          simp [chainM, ha, ha2, hd1, hd2, ih a b hj.2.2.2.2.1]

/-- Raw-equal worlds agree on the base blocking status of every minor. -/
theorem blockedBase_rawMatch (w w2 : SchedWorld) (hm : rawMatch w w2)
    (j : Nat) : blockedBase w j = blockedBase w2 j := by
  have hj := hm.2 j
  cases hd1 : minorToMdev w j with
  | none =>
    cases hd2 : minorToMdev w2 j with
    | none => simp [blockedBase, hd1, hd2]
    | some b => rw [hd1, hd2] at hj; cases hj
  | some a =>
    cases hd2 : minorToMdev w2 j with
    | none => rw [hd1, hd2] at hj; cases hj
    | some b =>
      rw [hd1, hd2] at hj
      obtain ⟨h1, h2, h3, h4, h5, h6⟩ := hj
      have hsk := devRawEq_skip a b ⟨h1, h2, h3, h4, h5, h6⟩
      have hraw : rawBlocked a = rawBlocked b := by
        simp [rawBlocked, h1, h3, h4]
      cases hss : skipDev b with
      | false =>
        have hsa : skipDev a = false := by rw [hsk, hss]
        simp [blockedBase, hd1, hd2, hraw, hsa, hss]
      | true =>
        have hsa : skipDev a = true := by rw [hsk, hss]
        have h7 := h6 hsa
        simp [blockedBase, hd1, hd2, hraw, hsa, hss, h7]

/-- Raw-equal worlds agree on the fixed-point target of every minor. -/
theorem targetAt_rawMatch (w w2 : SchedWorld) (hm : rawMatch w w2)
    (i : Nat) : targetAt w i = targetAt w2 i := by
  have hi := hm.2 i
  rw [targetAt, targetAt]
  cases hd1 : minorToMdev w i with
  | none =>
    cases hd2 : minorToMdev w2 i with
    | none => rfl
    | some b => rw [hd1, hd2] at hi; cases hi
  | some a =>
    cases hd2 : minorToMdev w2 i with
    | none => rw [hd1, hd2] at hi; cases hi
    | some b =>
      rw [hd1, hd2] at hi
      simp only [targetAftr]
      rw [← hm.1, ← chainM_rawMatch w w2 hm (w.length + 1) a b hi.2.2.2.2.1]
      congr 1
      funext j
      exact blockedBase_rawMatch w w2 hm j

/-- Raw-equal worlds agree on the link-rank property. -/
theorem linkRank_rawMatch (w w2 : SchedWorld) (hm : rawMatch w w2)
    (rank : Nat → Nat) (hl : linkRank w rank) : linkRank w2 rank := by
  intro i di j dj h1 h2 h3
  have hi := hm.2 i
  have hj := hm.2 j
  rw [h1] at hi
  rw [h3] at hj
  cases hd1 : minorToMdev w i with
  | none => rw [hd1] at hi; cases hi
  | some a =>
    cases hd2 : minorToMdev w j with
    | none => rw [hd2] at hj; cases hj
    | some b =>
      rw [hd1] at hi
      rw [hd2] at hj
      exact hl i a j b hd1 (by rw [hi.2.2.2.2.1, h2]) hd2

/-- Once the change bit is set, a pass reports change. -/
theorem passP_rv_true (step : SchedWorld → Nat → SchedWorld × Bool) :
    ∀ l w, (passP step l w true).2 = true := by
  intro l
  induction l with
  | nil => intro w; rfl
  | cons a t ih =>
    intro w
    simp only [passP, Bool.true_or]
    exact ih _

/-- A pass that reports no change left the world untouched and every
step returned no change, provided a changeless step is the identity. -/
theorem passP_false (step : SchedWorld → Nat → SchedWorld × Bool)
    (hstep : ∀ w i, (step w i).2 = false → (step w i).1 = w) :
    ∀ l w, (passP step l w false).2 = false →
      (passP step l w false).1 = w ∧ ∀ i ∈ l, (step w i).2 = false := by
  intro l
  induction l with
  | nil => intro w _; exact ⟨rfl, by simp⟩
  | cons a t ih =>
    intro w h
    have hc : (step w a).2 = false := by
      by_contra hc
      rw [Bool.not_eq_false] at hc
      rw [passP] at h
      rw [hc] at h
      simp only [Bool.or_true] at h
      rw [passP_rv_true step t (step w a).1] at h
      cases h
    have hw1 : (step w a).1 = w := hstep w a hc
    rw [passP, hc, hw1] at h
    simp only [Bool.or_false] at h
    obtain ⟨h1, h2⟩ := ih w h
    refine ⟨?_, ?_⟩
    · rw [passP, hc, hw1]
      simpa using h1
    · intro i hi
      rcases List.mem_cons.1 hi with hi | hi
      · rw [hi]; exact hc
      · exact h2 i hi

/-- A pause step with no change leaves the world unchanged. -/
theorem pauseStep_false (w : SchedWorld) (i : Nat)
    (h : (pauseStep w i).2 = false) : (pauseStep w i).1 = w := by
  rw [pauseStep] at h ⊢
  cases hdev : minorToMdev w i with
  | none => rfl
  | some od =>
    rw [hdev] at h
    by_cases hsk : skipDev od = true
    · simp [hsk]
    · by_cases hms : _drbd_may_sync_now w od = true
      · simp [hsk, hms]
      · simp only [hsk, hms, Bool.false_eq_true, if_false] at h ⊢
        have haftr : od.aftr_isp = true := by
          simpa using h
        exact setAftr_eq_self w i od hdev haftr

/-- A resume step with no change leaves the world unchanged. -/
theorem resumeStep_false (w : SchedWorld) (i : Nat)
    (h : (resumeStep w i).2 = false) : (resumeStep w i).1 = w := by
  rw [resumeStep] at h ⊢
  cases hdev : minorToMdev w i with
  | none => rfl
  | some od =>
    rw [hdev] at h
    by_cases hsk : skipDev od = true
    · simp [hsk]
    · by_cases ha : od.aftr_isp = true
      · by_cases hms : _drbd_may_sync_now w od = true
        · simp [hsk, ha, hms] at h
        · simp [hsk, ha, hms]
      · simp [hsk, ha]

/-- A changeless pause pass certifies: every configured device that may
not sync now is already paused. -/
theorem pausePass_nochange (w : SchedWorld)
    (h : (_drbd_pause_after w).2 = false) :
    (_drbd_pause_after w).1 = w ∧
    ∀ i od, minorToMdev w i = some od → skipDev od = false →
      _drbd_may_sync_now w od = false → od.aftr_isp = true := by
  obtain ⟨h1, h2⟩ := passP_false pauseStep pauseStep_false
    (List.range w.length) w h
  refine ⟨h1, fun i od hdev hsk hms => ?_⟩
  have hi : i < w.length := minorToMdev_lt w i od hdev
  have hstep := h2 i (List.mem_range.2 hi)
  rw [pauseStep, hdev] at hstep
  simp only [hsk, Bool.false_eq_true, if_false, hms] at hstep
  simpa using hstep

/-- A changeless resume pass certifies: every configured paused device
may still not sync now. -/
theorem resumePass_nochange (w : SchedWorld)
    (h : (_drbd_resume_next w).2 = false) :
    (_drbd_resume_next w).1 = w ∧
    ∀ i od, minorToMdev w i = some od → skipDev od = false →
      od.aftr_isp = true → _drbd_may_sync_now w od = false := by
  obtain ⟨h1, h2⟩ := passP_false resumeStep resumeStep_false
    (List.range w.length) w h
  refine ⟨h1, fun i od hdev hsk ha => ?_⟩
  have hi : i < w.length := minorToMdev_lt w i od hdev
  have hstep := h2 i (List.mem_range.2 hi)
  rw [resumeStep, hdev] at hstep
  simp only [hsk, Bool.false_eq_true, if_false, ha, if_true] at hstep
  by_contra hms
  rw [Bool.not_eq_false] at hms
  rw [hms] at hstep
  simp at hstep

/-- Whatever world the drbd_alter_sa loop returns satisfies the
eligibility/pause agreement for every configured device. -/
theorem alterSaLoop_fix :
    ∀ fuel w w2, alterSaLoop fuel w = some w2 →
      ∀ i od, minorToMdev w2 i = some od → skipDev od = false →
        od.aftr_isp = !(_drbd_may_sync_now w2 od) := by
  intro fuel
  induction fuel with
  | zero => intro w w2 h; cases h
  | succ n ih =>
    intro w w2 h
    rw [alterSaLoop] at h
    by_cases hc : ((_drbd_pause_after w).2 ||
        (_drbd_resume_next (_drbd_pause_after w).1).2) = true
    · rw [if_pos hc] at h
      exact ih _ _ h
    · rw [if_neg hc] at h
      rw [Bool.or_eq_true, not_or] at hc
      have hp : (_drbd_pause_after w).2 = false := by
        simpa using hc.1
      have hr : (_drbd_resume_next (_drbd_pause_after w).1).2 = false := by
        simpa using hc.2
      obtain ⟨hpw, hpc⟩ := pausePass_nochange w hp
      rw [hpw] at hr h
      obtain ⟨hrw, hrc⟩ := resumePass_nochange w hr
      rw [hrw] at h
      have hw2 : w2 = w := (Option.some.inj h).symm
      subst hw2
      intro i od hdev hsk
      cases hms : _drbd_may_sync_now w2 od with
      | false => simp [hpc i od hdev hsk hms]
      | true =>
        simp only [Bool.not_true]
        by_contra ha
        rw [Bool.not_eq_false] at ha
        have h9 := hrc i od hdev hsk ha
        rw [hms] at h9
        cases h9

/-- Chain minors have strictly smaller rank than their origin and are
registered. -/
theorem chainM_rank_lt (w : SchedWorld) (rank : Nat → Nat)
    (hl : linkRank w rank) :
    ∀ fuel i d, minorToMdev w i = some d →
      ∀ j ∈ chainM w fuel d,
        rank j < rank i ∧ ∃ od, minorToMdev w j = some od := by
  intro fuel
  induction fuel with
  | zero => intro i d hdev j hj; simp [chainM] at hj
  | succ n ih =>
    intro i d hdev j hj
    cases ha : d.after with
    | none => simp [chainM, ha] at hj
    | some j0 =>
      cases hd0 : minorToMdev w j0 with
      | none => simp [chainM, ha, hd0] at hj
      | some od0 =>
        simp only [chainM, ha, hd0, List.mem_cons] at hj
        have hlt0 : rank j0 < rank i := hl i d j0 od0 hdev ha hd0
        rcases hj with hj | hj
        · subst hj
          exact ⟨hlt0, od0, hd0⟩
        · obtain ⟨h1, h2⟩ := ih j0 od0 hd0 j hj
          exact ⟨h1.trans hlt0, h2⟩

/-- The chain does not depend on the fuel once the fuel exceeds the
origin's rank. -/
theorem chainM_fuel (w : SchedWorld) (rank : Nat → Nat)
    (hl : linkRank w rank) :
    ∀ f1 f2 i d, minorToMdev w i = some d → rank i < f1 → rank i < f2 →
      chainM w f1 d = chainM w f2 d := by
  intro f1
  induction f1 with
  | zero => intro f2 i d hdev h1 h2; omega
  | succ g ih =>
    intro f2 i d hdev h1 h2
    cases f2 with
    | zero => omega
    | succ g2 =>
      cases ha : d.after with
      | none => simp [chainM, ha]
      | some j =>
        cases hj : minorToMdev w j with
        | none => simp [chainM, ha, hj]
        | some od =>
          have hlt : rank j < rank i := hl i d j od hdev ha hj
          simp only [chainM, ha, hj, List.cons.injEq, true_and]
          exact ih g2 j od hj (by omega) (by omega)

/-- The chain of a chain element is contained in the original chain. -/
theorem chainM_trans (w : SchedWorld) (rank : Nat → Nat)
    (hl : linkRank w rank) :
    ∀ fuel i d, minorToMdev w i = some d → rank i < fuel →
      ∀ j ∈ chainM w fuel d, ∀ od, minorToMdev w j = some od →
        ∀ x ∈ chainM w fuel od, x ∈ chainM w fuel d := by
  intro fuel
  induction fuel with
  | zero => intro i d hdev hri; omega
  | succ g ih =>
    intro i d hdev hri j hj od hod x hx
    cases ha : d.after with
    | none => simp [chainM, ha] at hj
    | some j0 =>
      cases hd0 : minorToMdev w j0 with
      | none => simp [chainM, ha, hd0] at hj
      | some od0 =>
        have hlt0 : rank j0 < rank i := hl i d j0 od0 hdev ha hd0
        simp only [chainM, ha, hd0, List.mem_cons] at hj ⊢
        rcases hj with hj | hj
        · subst hj
          have hodeq : od = od0 := Option.some.inj (hod.symm.trans hd0)
          subst hodeq
          right
          have hfeq : chainM w (g + 1) od = chainM w g od :=
            chainM_fuel w rank hl (g + 1) g j od hod (by omega) (by omega)
          rw [hfeq] at hx
          exact hx
        · have hrj : rank j < rank j0 :=
            (chainM_rank_lt w rank hl g j0 od0 hd0 j hj).1
          have hfeq : chainM w (g + 1) od = chainM w g od :=
            chainM_fuel w rank hl (g + 1) g j od hod (by omega) (by omega)
          rw [hfeq] at hx
          right
          exact ih j0 od0 hd0 (by omega) j hj od hod x hx

/-- When every minor on a device's prerequisite chain carries its
fixed-point flag, the eligibility loop computes the negation of the
device's fixed-point target. -/
theorem maySync_fix (w : SchedWorld) (rank : Nat → Nat)
    (hl : linkRank w rank) (RB : ∀ i, i < w.length → rank i < w.length)
    (a : Nat) (od : SchedDev) (hdev : minorToMdev w a = some od)
    (hch : ∀ j ∈ chainM w (w.length + 1) od, atTargetMinor w j) :
    _drbd_may_sync_now w od = !(targetAftr w od) := by
  have hra : rank a < w.length + 1 := by
    have := RB a (minorToMdev_lt w a od hdev)
    omega
  have hiff : ((chainM w (w.length + 1) od).any (fun j => blockedAt w j) =
      true) ↔
      ((chainM w (w.length + 1) od).any (fun j => blockedBase w j) = true) := by
    simp only [List.any_eq_true]
    constructor
    · rintro ⟨j, hj, hbj⟩
      obtain ⟨od2, hod2⟩ : ∃ od2, minorToMdev w j = some od2 := by
        cases hdd : minorToMdev w j with
        | none => simp [blockedAt, hdd] at hbj
        | some o => exact ⟨o, rfl⟩
      have hbj2 : syncBlocked od2 = true := by
        simpa [blockedAt, hod2] using hbj
      rw [syncBlocked_eq, Bool.or_eq_true] at hbj2
      rcases hbj2 with hraw | haftr
      · exact ⟨j, hj, by simp [blockedBase, hod2, hraw]⟩
      · cases hsk : skipDev od2 with
        | true => exact ⟨j, hj, by simp [blockedBase, hod2, hsk, haftr]⟩
        | false =>
          have htg := hch j hj od2 hod2 hsk
          have htg2 : targetAftr w od2 = true := by
            rw [haftr] at htg
            simpa [targetAt, hod2] using htg.symm
          rw [targetAftr, List.any_eq_true] at htg2
          obtain ⟨x, hx, hbx⟩ := htg2
          exact ⟨x, chainM_trans w rank hl (w.length + 1) a od hdev hra
            j hj od2 hod2 x hx, hbx⟩
    · rintro ⟨j, hj, hbj⟩
      cases hdd : minorToMdev w j with
      | none => simp [blockedBase, hdd] at hbj
      | some od2 =>
        refine ⟨j, hj, ?_⟩
        have hbb : (rawBlocked od2 || (skipDev od2 && od2.aftr_isp)) =
            true := by
          simpa [blockedBase, hdd] using hbj
        rw [Bool.or_eq_true] at hbb
        have hsb : syncBlocked od2 = true := by
          rw [syncBlocked_eq, Bool.or_eq_true]
          rcases hbb with h | h
          · exact Or.inl h
          · rw [Bool.and_eq_true] at h
            exact Or.inr h.2
        simp [blockedAt, hdd, hsb]
  have hany : (chainM w (w.length + 1) od).any (fun j => blockedAt w j) =
      (chainM w (w.length + 1) od).any (fun j => blockedBase w j) := by
    cases hA : (chainM w (w.length + 1) od).any (fun j => blockedAt w j) <;>
      cases hB : (chainM w (w.length + 1) od).any
        (fun j => blockedBase w j) <;> simp_all
  rw [_drbd_may_sync_now, maySyncNowAux_eq_chain, hany]
  rfl

/-- Behavior of one pause-pass step: it raw-matches the input world,
preserves all below-k fixed points, touches no other minor, and drives a
rank-k device toward its fixed point (sets the flag when the target is
set, leaves it alone when the target is clear). -/
theorem pauseStep_facts (w : SchedWorld) (rank : Nat → Nat) (k : Nat)
    (hl : linkRank w rank) (RB : ∀ i, i < w.length → rank i < w.length)
    (BT : belowTarget w rank k) (a : Nat) :
    rawMatch w (pauseStep w a).1
    ∧ belowTarget (pauseStep w a).1 rank k
    ∧ (∀ j, j ≠ a → minorToMdev (pauseStep w a).1 j = minorToMdev w j)
    ∧ (rank a = k → ∀ od, minorToMdev w a = some od → skipDev od = false →
        (targetAt w a = true → aftrAt (pauseStep w a).1 a = some true)
        ∧ (targetAt w a = false →
            aftrAt (pauseStep w a).1 a = aftrAt w a)) := by
  cases hdev : minorToMdev w a with
  | none =>
    have hstep : pauseStep w a = (w, false) := by simp [pauseStep, hdev]
    rw [hstep]
    exact ⟨rawMatch_refl w, BT, fun j _ => rfl,
      fun _ od hod => by cases hod⟩
  | some od =>
    have hchain : rank a ≤ k →
        ∀ j ∈ chainM w (w.length + 1) od, atTargetMinor w j := by
      intro hak j hj
      have hrj := (chainM_rank_lt w rank hl (w.length + 1) a od hdev j hj).1
      exact BT j (by omega)
    by_cases hsk : skipDev od = true
    · have hstep : pauseStep w a = (w, false) := by simp [pauseStep, hdev, hsk]
      rw [hstep]
      refine ⟨rawMatch_refl w, BT, fun j _ => rfl, fun _ od2 hod2 hsk2 => ?_⟩
      cases hod2
      rw [hsk] at hsk2
      cases hsk2
    · have hskf : skipDev od = false := Bool.eq_false_iff.2 hsk
      have htgt : targetAt w a = targetAftr w od := by
        simp [targetAt, hdev]
      cases hms : _drbd_may_sync_now w od with
      | true =>
        have hstep : pauseStep w a = (w, false) := by
          simp [pauseStep, hdev, hsk, hms]
        rw [hstep]
        refine ⟨rawMatch_refl w, BT, fun j _ => rfl,
          fun hak od2 hod2 hsk2 => ?_⟩
        cases hod2
        have hfix := maySync_fix w rank hl RB a od hdev (hchain (by omega))
        rw [hms] at hfix
        have htf : targetAt w a = false := by
          rw [htgt]
          cases htA : targetAftr w od with
          | false => rfl
          | true => rw [htA] at hfix; cases hfix
        refine ⟨fun h => ?_, fun _ => rfl⟩
        rw [htf] at h
        cases h
      | false =>
        have hstep : pauseStep w a = (setAftr w a true, !od.aftr_isp) := by
          simp [pauseStep, hdev, hsk, hms]
        have hm1 : rawMatch w (setAftr w a true) :=
          setAftr_rawMatch w a true od hdev hskf
        rw [hstep]
        dsimp only
        have hdev1 : minorToMdev (setAftr w a true) a =
            some { od with aftr_isp := true } :=
          minorToMdev_setAftr_same w a true od hdev
        refine ⟨hm1, ?_, fun j hj => minorToMdev_setAftr_other w a true j hj,
          fun hak od2 hod2 hsk2 => ?_⟩
        · intro i hri od2 hod2 hsk2
          by_cases hia : i = a
          · subst hia
            rw [hdev1] at hod2
            cases hod2
            have hfix := maySync_fix w rank hl RB i od hdev (hchain (by omega))
            rw [hms] at hfix
            have htT : targetAftr w od = true := by
              cases htA : targetAftr w od with
              | true => rfl
              | false => rw [htA] at hfix; cases hfix
            have htr := targetAt_rawMatch w (setAftr w i true) hm1 i
            rw [← htr, htgt, htT]
          · rw [minorToMdev_setAftr_other w a true i hia] at hod2
            have h0 := BT i hri od2 hod2 hsk2
            rw [h0]
            exact targetAt_rawMatch w (setAftr w a true) hm1 i
        · cases hod2
          have hfix := maySync_fix w rank hl RB a od hdev (hchain (by omega))
          rw [hms] at hfix
          have htT : targetAftr w od = true := by
            cases htA : targetAftr w od with
            | true => rfl
            | false => rw [htA] at hfix; cases hfix
          refine ⟨fun _ => ?_, fun h => ?_⟩
          · simp [aftrAt, hdev1]
          · rw [htgt, htT] at h
            cases h

/-- Behavior of one resume-pass step, symmetric to pauseStep_facts: a
rank-k device is resumed when its target is clear and left alone when
its target is set. -/
theorem resumeStep_facts (w : SchedWorld) (rank : Nat → Nat) (k : Nat)
    (hl : linkRank w rank) (RB : ∀ i, i < w.length → rank i < w.length)
    (BT : belowTarget w rank k) (a : Nat) :
    rawMatch w (resumeStep w a).1
    ∧ belowTarget (resumeStep w a).1 rank k
    ∧ (∀ j, j ≠ a → minorToMdev (resumeStep w a).1 j = minorToMdev w j)
    ∧ (rank a = k → ∀ od, minorToMdev w a = some od → skipDev od = false →
        (targetAt w a = false → aftrAt (resumeStep w a).1 a = some false)
        ∧ (targetAt w a = true →
            aftrAt (resumeStep w a).1 a = aftrAt w a)) := by
  cases hdev : minorToMdev w a with
  | none =>
    have hstep : resumeStep w a = (w, false) := by simp [resumeStep, hdev]
    rw [hstep]
    exact ⟨rawMatch_refl w, BT, fun j _ => rfl,
      fun _ od hod => by cases hod⟩
  | some od =>
    have hchain : rank a ≤ k →
        ∀ j ∈ chainM w (w.length + 1) od, atTargetMinor w j := by
      intro hak j hj
      have hrj := (chainM_rank_lt w rank hl (w.length + 1) a od hdev j hj).1
      exact BT j (by omega)
    by_cases hsk : skipDev od = true
    · have hstep : resumeStep w a = (w, false) := by
        simp [resumeStep, hdev, hsk]
      rw [hstep]
      refine ⟨rawMatch_refl w, BT, fun j _ => rfl, fun _ od2 hod2 hsk2 => ?_⟩
      cases hod2
      rw [hsk] at hsk2
      cases hsk2
    · have hskf : skipDev od = false := Bool.eq_false_iff.2 hsk
      have htgt : targetAt w a = targetAftr w od := by
        simp [targetAt, hdev]
      by_cases ha : od.aftr_isp = true
      · cases hms : _drbd_may_sync_now w od with
        | true =>
          have hstep : resumeStep w a = (setAftr w a false, true) := by
            simp [resumeStep, hdev, hsk, ha, hms]
          have hm1 : rawMatch w (setAftr w a false) :=
            setAftr_rawMatch w a false od hdev hskf
          rw [hstep]
          dsimp only
          have hdev1 : minorToMdev (setAftr w a false) a =
              some { od with aftr_isp := false } :=
            minorToMdev_setAftr_same w a false od hdev
          refine ⟨hm1, ?_,
            fun j hj => minorToMdev_setAftr_other w a false j hj,
            fun hak od2 hod2 hsk2 => ?_⟩
          · intro i hri od2 hod2 hsk2
            by_cases hia : i = a
            · subst hia
              rw [hdev1] at hod2
              cases hod2
              have hfix := maySync_fix w rank hl RB i od hdev
                (hchain (by omega))
              rw [hms] at hfix
              have htF : targetAftr w od = false := by
                cases htA : targetAftr w od with
                | false => rfl
                | true => rw [htA] at hfix; cases hfix
              have htr := targetAt_rawMatch w (setAftr w i false) hm1 i
              rw [← htr, htgt, htF]
            · rw [minorToMdev_setAftr_other w a false i hia] at hod2
              have h0 := BT i hri od2 hod2 hsk2
              rw [h0]
              exact targetAt_rawMatch w (setAftr w a false) hm1 i
          · cases hod2
            have hfix := maySync_fix w rank hl RB a od hdev (hchain (by omega))
            rw [hms] at hfix
            have htF : targetAftr w od = false := by
              cases htA : targetAftr w od with
              | false => rfl
              | true => rw [htA] at hfix; cases hfix
            refine ⟨fun _ => ?_, fun h => ?_⟩
            · simp [aftrAt, hdev1]
            · rw [htgt, htF] at h
              cases h
        | false =>
          have hstep : resumeStep w a = (w, false) := by
            simp [resumeStep, hdev, hsk, ha, hms]
          rw [hstep]
          refine ⟨rawMatch_refl w, BT, fun j _ => rfl,
            fun hak od2 hod2 hsk2 => ?_⟩
          cases hod2
          have hfix := maySync_fix w rank hl RB a od hdev (hchain (by omega))
          rw [hms] at hfix
          have htT : targetAftr w od = true := by
            cases htA : targetAftr w od with
            | true => rfl
            | false => rw [htA] at hfix; cases hfix
          refine ⟨fun h => ?_, fun _ => rfl⟩
          rw [htgt, htT] at h
          cases h
      · have hstep : resumeStep w a = (w, false) := by
          simp [resumeStep, hdev, hsk, ha]
        rw [hstep]
        refine ⟨rawMatch_refl w, BT, fun j _ => rfl,
          fun hak od2 hod2 hsk2 => ?_⟩
        cases hod2
        have haf : od.aftr_isp = false := Bool.eq_false_iff.2 ha
        refine ⟨fun _ => ?_, fun _ => rfl⟩
        simp [aftrAt, hdev, haf]

/-- The pause pass, over any duplicate-free minor list: raw-matches its
input, preserves below-k fixed points, leaves unlisted minors untouched
and drives every listed rank-k device toward its fixed point. -/
theorem pausePass_aux (rank : Nat → Nat) (k : Nat) :
    ∀ l : List Nat, l.Nodup →
      ∀ w rv, linkRank w rank → (∀ i, i < w.length → rank i < w.length) →
        belowTarget w rank k →
        rawMatch w (passP pauseStep l w rv).1
        ∧ belowTarget (passP pauseStep l w rv).1 rank k
        ∧ (∀ i, i ∉ l →
            minorToMdev (passP pauseStep l w rv).1 i = minorToMdev w i)
        ∧ (∀ i ∈ l, rank i = k →
            ∀ od, minorToMdev w i = some od → skipDev od = false →
              (targetAt w i = true →
                aftrAt (passP pauseStep l w rv).1 i = some true)
              ∧ (targetAt w i = false →
                aftrAt (passP pauseStep l w rv).1 i = aftrAt w i)) := by
  intro l
  induction l with
  | nil =>
    intro _ w rv hl RB BT
    exact ⟨rawMatch_refl w, BT, fun i _ => rfl, by simp⟩
  | cons a t ih =>
    intro hnd w rv hl RB BT
    rw [List.nodup_cons] at hnd
    obtain ⟨hat, hndt⟩ := hnd
    obtain ⟨f1, f2, f3, f4⟩ := pauseStep_facts w rank k hl RB BT a
    have hl1 : linkRank (pauseStep w a).1 rank :=
      linkRank_rawMatch _ _ f1 rank hl
    have RB1 : ∀ i, i < (pauseStep w a).1.length →
        rank i < (pauseStep w a).1.length := by
      intro i hi
      rw [← f1.1] at hi ⊢
      exact RB i hi
    obtain ⟨g1, g2, g3, g4⟩ := ih hndt (pauseStep w a).1
      (rv || (pauseStep w a).2) hl1 RB1 f2
    have hpass : passP pauseStep (a :: t) w rv =
        passP pauseStep t (pauseStep w a).1 (rv || (pauseStep w a).2) := rfl
    rw [hpass]
    refine ⟨rawMatch_trans _ _ _ f1 g1, g2, ?_, ?_⟩
    · intro i hi
      rw [List.mem_cons, not_or] at hi
      rw [g3 i hi.2, f3 i hi.1]
    · intro i hi hrk od hod hskod
      rcases List.mem_cons.1 hi with hia | hit
      · subst hia
        have hstep := f4 hrk od hod hskod
        have haftr_eq : aftrAt (passP pauseStep t (pauseStep w i).1
            (rv || (pauseStep w i).2)).1 i = aftrAt (pauseStep w i).1 i := by
          rw [aftrAt, aftrAt, g3 i hat]
        refine ⟨fun h => ?_, fun h => ?_⟩
        · rw [haftr_eq]
          exact hstep.1 h
        · rw [haftr_eq]
          exact hstep.2 h
      · have hine : i ≠ a := fun h => hat (h ▸ hit)
        have hdev1 : minorToMdev (pauseStep w a).1 i = minorToMdev w i :=
          f3 i hine
        have htr : targetAt (pauseStep w a).1 i = targetAt w i :=
          (targetAt_rawMatch w _ f1 i).symm
        have hres := g4 i hit hrk od (by rw [hdev1]; exact hod) hskod
        refine ⟨fun h => ?_, fun h => ?_⟩
        · exact hres.1 (by rw [htr]; exact h)
        · have h2 := hres.2 (by rw [htr]; exact h)
          rw [h2, aftrAt, aftrAt, hdev1]

/-- The resume pass, over any duplicate-free minor list, symmetric to
pausePass_aux. -/
theorem resumePass_aux (rank : Nat → Nat) (k : Nat) :
    ∀ l : List Nat, l.Nodup →
      ∀ w rv, linkRank w rank → (∀ i, i < w.length → rank i < w.length) →
        belowTarget w rank k →
        rawMatch w (passP resumeStep l w rv).1
        ∧ belowTarget (passP resumeStep l w rv).1 rank k
        ∧ (∀ i, i ∉ l →
            minorToMdev (passP resumeStep l w rv).1 i = minorToMdev w i)
        ∧ (∀ i ∈ l, rank i = k →
            ∀ od, minorToMdev w i = some od → skipDev od = false →
              (targetAt w i = false →
                aftrAt (passP resumeStep l w rv).1 i = some false)
              ∧ (targetAt w i = true →
                aftrAt (passP resumeStep l w rv).1 i = aftrAt w i)) := by
  intro l
  induction l with
  | nil =>
    intro _ w rv hl RB BT
    exact ⟨rawMatch_refl w, BT, fun i _ => rfl, by simp⟩
  | cons a t ih =>
    intro hnd w rv hl RB BT
    rw [List.nodup_cons] at hnd
    obtain ⟨hat, hndt⟩ := hnd
    obtain ⟨f1, f2, f3, f4⟩ := resumeStep_facts w rank k hl RB BT a
    have hl1 : linkRank (resumeStep w a).1 rank :=
      linkRank_rawMatch _ _ f1 rank hl
    have RB1 : ∀ i, i < (resumeStep w a).1.length →
        rank i < (resumeStep w a).1.length := by
      intro i hi
      rw [← f1.1] at hi ⊢
      exact RB i hi
    obtain ⟨g1, g2, g3, g4⟩ := ih hndt (resumeStep w a).1
      (rv || (resumeStep w a).2) hl1 RB1 f2
    have hpass : passP resumeStep (a :: t) w rv =
        passP resumeStep t (resumeStep w a).1 (rv || (resumeStep w a).2) := rfl
    rw [hpass]
    refine ⟨rawMatch_trans _ _ _ f1 g1, g2, ?_, ?_⟩
    · intro i hi
      rw [List.mem_cons, not_or] at hi
      rw [g3 i hi.2, f3 i hi.1]
    · intro i hi hrk od hod hskod
      rcases List.mem_cons.1 hi with hia | hit
      · subst hia
        have hstep := f4 hrk od hod hskod
        have haftr_eq : aftrAt (passP resumeStep t (resumeStep w i).1
            (rv || (resumeStep w i).2)).1 i = aftrAt (resumeStep w i).1 i := by
          rw [aftrAt, aftrAt, g3 i hat]
        refine ⟨fun h => ?_, fun h => ?_⟩
        · rw [haftr_eq]
          exact hstep.1 h
        · rw [haftr_eq]
          exact hstep.2 h
      · have hine : i ≠ a := fun h => hat (h ▸ hit)
        have hdev1 : minorToMdev (resumeStep w a).1 i = minorToMdev w i :=
          f3 i hine
        have htr : targetAt (resumeStep w a).1 i = targetAt w i :=
          (targetAt_rawMatch w _ f1 i).symm
        have hres := g4 i hit hrk od (by rw [hdev1]; exact hod) hskod
        refine ⟨fun h => ?_, fun h => ?_⟩
        · exact hres.1 (by rw [htr]; exact h)
        · have h2 := hres.2 (by rw [htr]; exact h)
          rw [h2, aftrAt, aftrAt, hdev1]

/-- One full pause-after / resume-next pass pair raw-matches its input
and extends the fixed-point region by one rank level. -/
theorem fullPass_below (rank : Nat → Nat) (k : Nat) (w : SchedWorld)
    (hl : linkRank w rank) (RB : ∀ i, i < w.length → rank i < w.length)
    (BT : belowTarget w rank k) :
    rawMatch w (_drbd_resume_next (_drbd_pause_after w).1).1
    ∧ belowTarget (_drbd_resume_next (_drbd_pause_after w).1).1 rank
        (k + 1) := by
  obtain ⟨p1, p2, p3, p4⟩ := pausePass_aux rank k (List.range w.length)
    (List.nodup_range _) w false hl RB BT
  have hw1 : (_drbd_pause_after w).1 =
      (passP pauseStep (List.range w.length) w false).1 := rfl
  rw [hw1]
  set W1 := (passP pauseStep (List.range w.length) w false).1 with hW1def
  have hlen1 : W1.length = w.length := p1.1.symm
  have hl1 : linkRank W1 rank := linkRank_rawMatch _ _ p1 rank hl
  have RB1 : ∀ i, i < W1.length → rank i < W1.length := by
    rw [hlen1]
    exact RB
  obtain ⟨q1, q2, q3, q4⟩ := resumePass_aux rank k (List.range W1.length)
    (List.nodup_range _) W1 false hl1 RB1 p2
  have hw2 : _drbd_resume_next W1 =
      passP resumeStep (List.range W1.length) W1 false := rfl
  rw [hw2]
  set W2 := (passP resumeStep (List.range W1.length) W1 false).1 with hW2def
  have hm2 : rawMatch w W2 := rawMatch_trans _ _ _ p1 q1
  refine ⟨hm2, ?_⟩
  intro i hri
  by_cases hik : rank i < k
  · exact q2 i hik
  · have hrk : rank i = k := by omega
    intro od2 hod2 hsk2
    have hdi := hm2.2 i
    rw [hod2] at hdi
    cases hd0 : minorToMdev w i with
    | none => rw [hd0] at hdi; cases hdi
    | some od0 =>
      rw [hd0] at hdi
      obtain ⟨hc0, hd0eq, _, _, _, _⟩ := hdi
      have hsk0 : skipDev od0 = false := by
        rw [skipDev, hc0, hd0eq]
        exact hsk2
      have hdi1 := p1.2 i
      rw [hd0] at hdi1
      cases hd1 : minorToMdev W1 i with
      | none => rw [hd1] at hdi1; cases hdi1
      | some od1 =>
        rw [hd1] at hdi1
        obtain ⟨hc1, hd1eq, _, _, _, _⟩ := hdi1
        have hsk1 : skipDev od1 = false := by
          rw [skipDev, ← hc1, ← hd1eq]
          exact hsk0
        have htW1 : targetAt w i = targetAt W1 i := targetAt_rawMatch w W1 p1 i
        have htW2 : targetAt w i = targetAt W2 i :=
          targetAt_rawMatch w W2 hm2 i
        have haf2 : aftrAt W2 i = some od2.aftr_isp := by
          rw [aftrAt, hod2]
          rfl
        have hi_lt : i < w.length := minorToMdev_lt w i od0 hd0
        have hmem1 : i ∈ List.range w.length := List.mem_range.2 hi_lt
        have hmem2 : i ∈ List.range W1.length := by
          rw [hlen1]
          exact hmem1
        obtain ⟨pa, pb⟩ := p4 i hmem1 hrk od0 hd0 hsk0
        obtain ⟨qa, qb⟩ := q4 i hmem2 hrk od1 hd1 hsk1
        cases ht : targetAt w i with
        | false =>
          have h2 : aftrAt W2 i = some false := qa (by rw [← htW1]; exact ht)
          rw [haf2] at h2
          rw [← htW2, ht]
          exact Option.some.inj h2
        | true =>
          have h1 : aftrAt W1 i = some true := pa ht
          have h2 : aftrAt W2 i = aftrAt W1 i := qb (by rw [← htW1]; exact ht)
          rw [haf2, h1] at h2
          rw [← htW2, ht]
          exact Option.some.inj h2

/-- Once every minor is at its fixed point, one pause-loop iteration is
the identity and reports no change. -/
theorem pauseStep_id (w : SchedWorld) (rank : Nat → Nat)
    (hl : linkRank w rank) (RB : ∀ i, i < w.length → rank i < w.length)
    (BT : belowTarget w rank w.length) (i : Nat) :
    pauseStep w i = (w, false) := by
  cases hdev : minorToMdev w i with
  | none => simp [pauseStep, hdev]
  | some od =>
    by_cases hsk : skipDev od = true
    · simp [pauseStep, hdev, hsk]
    · have hskf : skipDev od = false := Bool.eq_false_iff.2 hsk
      have hil : i < w.length := minorToMdev_lt w i od hdev
      have hch : ∀ j ∈ chainM w (w.length + 1) od, atTargetMinor w j := by
        intro j hj
        have := (chainM_rank_lt w rank hl (w.length + 1) i od hdev j hj).1
        exact BT j (by have := RB i hil; omega)
      have hms := maySync_fix w rank hl RB i od hdev hch
      have hat : od.aftr_isp = targetAftr w od := by
        have h := BT i (RB i hil) od hdev hskf
        rw [h]
        simp [targetAt, hdev]
      cases ht : targetAftr w od with
      | false =>
        have hmst : _drbd_may_sync_now w od = true := by
          rw [hms, ht]
          rfl
        simp [pauseStep, hdev, hskf, hmst]
      | true =>
        have hmsf : _drbd_may_sync_now w od = false := by
          rw [hms, ht]
          rfl
        have haf : od.aftr_isp = true := by rw [hat, ht]
        have hset : setAftr w i true = w := setAftr_eq_self w i od hdev haf
        simp [pauseStep, hdev, hskf, hmsf, hset, haf]

/-- Once every minor is at its fixed point, one resume-loop iteration is
the identity and reports no change. -/
theorem resumeStep_id (w : SchedWorld) (rank : Nat → Nat)
    (hl : linkRank w rank) (RB : ∀ i, i < w.length → rank i < w.length)
    (BT : belowTarget w rank w.length) (i : Nat) :
    resumeStep w i = (w, false) := by
  cases hdev : minorToMdev w i with
  | none => simp [resumeStep, hdev]
  | some od =>
    by_cases hsk : skipDev od = true
    · simp [resumeStep, hdev, hsk]
    · have hskf : skipDev od = false := Bool.eq_false_iff.2 hsk
      have hil : i < w.length := minorToMdev_lt w i od hdev
      have hch : ∀ j ∈ chainM w (w.length + 1) od, atTargetMinor w j := by
        intro j hj
        have := (chainM_rank_lt w rank hl (w.length + 1) i od hdev j hj).1
        exact BT j (by have := RB i hil; omega)
      have hms := maySync_fix w rank hl RB i od hdev hch
      have hat : od.aftr_isp = targetAftr w od := by
        have h := BT i (RB i hil) od hdev hskf
        rw [h]
        simp [targetAt, hdev]
      cases ha : od.aftr_isp with
      | false => simp [resumeStep, hdev, hskf, ha]
      | true =>
        have ht : targetAftr w od = true := by rw [← hat, ha]
        have hmsf : _drbd_may_sync_now w od = false := by
          rw [hms, ht]
          rfl
        simp [resumeStep, hdev, hskf, ha, hmsf]

/-- A pass whose every step is the no-change identity is itself the
no-change identity. -/
theorem passP_id (step : SchedWorld → Nat → SchedWorld × Bool) :
    ∀ (l : List Nat) (w : SchedWorld), (∀ i ∈ l, step w i = (w, false)) →
      passP step l w false = (w, false) := by
  intro l
  induction l with
  | nil => intro w _; rfl
  | cons a t ih =>
    intro w h
    have ha := h a (List.mem_cons_self a t)
    have e1 : passP step (a :: t) w false = passP step t w false := by
      simp [passP, ha]
    rw [e1]
    exact ih w (fun i hi => h i (List.mem_cons_of_mem a hi))

/-- At the global fixed point both passes leave the world untouched and
report no change, so the drbd_alter_sa loop exits. -/
theorem fullPass_fixed (w : SchedWorld) (rank : Nat → Nat)
    (hl : linkRank w rank) (RB : ∀ i, i < w.length → rank i < w.length)
    (BT : belowTarget w rank w.length) :
    _drbd_pause_after w = (w, false) ∧ _drbd_resume_next w = (w, false) :=
  ⟨passP_id pauseStep (List.range w.length) w
      (fun i _ => pauseStep_id w rank hl RB BT i),
    passP_id resumeStep (List.range w.length) w
      (fun i _ => resumeStep_id w rank hl RB BT i)⟩

/-- Termination of the drbd_alter_sa fixed-point loop: with an
acyclicity rank and enough fuel to cover the ranks not yet at their
fixed point, the loop returns a world. -/
theorem alterSaLoop_term (rank : Nat → Nat) :
    ∀ fuel m w, 1 ≤ fuel → linkRank w rank →
      (∀ i, i < w.length → rank i < w.length) →
      belowTarget w rank m → w.length + 1 ≤ m + fuel →
      ∃ w2, alterSaLoop fuel w = some w2 := by
  intro fuel
  induction fuel with
  | zero =>
    intro m w hf
    exact absurd hf (by omega)
  | succ f ih =>
    intro m w _ hl RB BT hb
    by_cases hm : w.length ≤ m
    · have BTn : belowTarget w rank w.length := fun i hri => BT i (by omega)
      obtain ⟨hp, hr⟩ := fullPass_fixed w rank hl RB BTn
      refine ⟨w, ?_⟩
      simp [alterSaLoop, hp, hr]
    · push_neg at hm
      obtain ⟨hfm, BT2⟩ := fullPass_below rank m w hl RB BT
      by_cases hc : ((_drbd_pause_after w).2 ||
          (_drbd_resume_next (_drbd_pause_after w).1).2) = true
      · have hlen2 : (_drbd_resume_next (_drbd_pause_after w).1).1.length =
            w.length := hfm.1.symm
        have hl2 := linkRank_rawMatch _ _ hfm rank hl
        have RB2 : ∀ i,
            i < (_drbd_resume_next (_drbd_pause_after w).1).1.length →
            rank i < (_drbd_resume_next (_drbd_pause_after w).1).1.length := by
          rw [hlen2]
          exact RB
        obtain ⟨w3, hw3⟩ := ih (m + 1)
          (_drbd_resume_next (_drbd_pause_after w).1).1
          (by omega) hl2 RB2 BT2 (by rw [hlen2]; omega)
        refine ⟨w3, ?_⟩
        have e : alterSaLoop (f + 1) w =
            alterSaLoop f (_drbd_resume_next (_drbd_pause_after w).1).1 := by
          simp [alterSaLoop, hc]
        rw [e]
        exact hw3
      · refine ⟨(_drbd_resume_next (_drbd_pause_after w).1).1, ?_⟩
        have hcf : ((_drbd_pause_after w).2 ||
            (_drbd_resume_next (_drbd_pause_after w).1).2) = false :=
          Bool.eq_false_iff.2 hc
        simp [alterSaLoop, hcf]

/-- C3: on an acyclic sync-after configuration (witnessed by a rank
function), drbd_alter_sa terminates within registry-size-plus-two pass
pairs, and in the returned world the dependency-pause flag of every
configured device (one not simultaneously StandAlone and Diskless; the
passes skip unconfigured devices, whose stale flags are left as they
were) agrees with the eligibility rule: it is paused iff
_drbd_may_sync_now is false. -/
theorem c3_alter_sa_fixed_point (w : SchedWorld) (minor : Nat)
    (na : Option Nat) (rank : Nat → Nat)
    (hr : hrankOk (setAfterW w minor na) rank = true) :
    ∃ w2, drbd_alter_sa w minor na (w.length + 2) = some w2
      ∧ ∀ i od, minorToMdev w2 i = some od → skipDev od = false →
          od.aftr_isp = !(_drbd_may_sync_now w2 od) := by
  obtain ⟨RB, hl⟩ := hrank_spec _ rank hr
  have hlen : (setAfterW w minor na).length = w.length := by
    simp [setAfterW]
  obtain ⟨w2, hw2⟩ := alterSaLoop_term rank (w.length + 2) 0
    (setAfterW w minor na) (by omega) hl RB
    (fun i hri => absurd hri (Nat.not_lt_zero _))
    (by rw [hlen]; omega)
  exact ⟨w2, hw2, alterSaLoop_fix _ _ _ hw2⟩

/-- Witness for c3_alter_sa_fixed_point: two devices, minor 0 actively
SyncSource, minor 1 Connected; drbd_alter_sa points minor 1 after minor
0; the identity rank witnesses acyclicity. -/
theorem c3_alter_sa_fixed_point_witness :
    hrankOk (setAfterW c3wW 1 (some 0)) (fun i => i) = true
    ∧ ∃ w2, drbd_alter_sa c3wW 1 (some 0) (c3wW.length + 2) = some w2
      ∧ ∀ i od, minorToMdev w2 i = some od → skipDev od = false →
          od.aftr_isp = !(_drbd_may_sync_now w2 od) :=
  ⟨by decide, c3_alter_sa_fixed_point c3wW 1 (some 0) (fun i => i) (by decide)⟩

/-- C3 counterexample to the unqualified agreement: a world whose only
device is unconfigured (StandAlone, Diskless) with a stale
dependency-pause flag; drbd_alter_sa terminates and returns it
unchanged, yet that device has aftr_isp = true while
_drbd_may_sync_now is true, so pause flag and eligibility rule disagree
on it. -/
theorem c3_counterexample :
    drbd_alter_sa c3wX 0 none 3 = some c3wX
    ∧ minorToMdev c3wX 0 = some c3dX
    ∧ c3dX.aftr_isp = true
    ∧ _drbd_may_sync_now c3wX c3dX = true := by
  refine ⟨?_, rfl, rfl, rfl⟩
  decide

end Drbd
